import Mathlib

/-!
Verification of the real-time connection/subscription manager of the
smart-task-management backend (`backend/app/infrastructure/websocket.py`).

The Python `ConnectionManager` keeps three dictionaries:
  * `user_connections : Dict[str, List[WebSocketConnection]]`
  * `connections      : Dict[str, WebSocketConnection]`
  * `project_subscriptions : Dict[str, Set[str]]`

We embed Python dicts as insertion-ordered association lists (`List (κ × β)`)
with first-match lookup, in-place update and first-match deletion, exactly
matching CPython dict semantics for the unique-key states the manager
produces.  Python sets of user ids are embedded as duplicate-free lists;
set iteration order is unspecified in Python, our list order is one such
order (no claim below depends on iteration order).  Connection ids are
produced by `uuid.uuid4()` in the source with a globally-unique-by-
construction contract; we embed them as the value of a `nextId` counter
carried in the state, which realises exactly that contract.

Transport behaviour (`websocket.client_state`, `send_text` raising) is
external input/output, not manager state; it is embedded as an
environment `Env` of oracles keyed by connection id, together with the
current wall clock (`datetime.utcnow()`).  A successful `send_text` is
recorded as a delivered frame `(connection_id, message)`; a failed send
delivers nothing, mirroring the source.

`disconnect` and the send path are mutually recursive in the source
(a failed send during the offline-status broadcast disconnects further
connections, which can broadcast again).  We break the cycle exactly at
that edge: the send-side functions take the recursive `disconnect`
reference as an explicit callback `cb`, and `disconnect` ties the knot by
structural recursion on a depth bound `fuel`.  The bound is only consumed
when a send failure triggers a nested disconnect, so every execution of
the source is reproduced exactly by any `fuel` at least the number of
registered connections; executions in which no send fails are reproduced
exactly for every `fuel`.
-/

namespace STM

/-- First-match association-list lookup: CPython `d[k]` / `k in d`. -/
def alookup {κ β : Type} [DecidableEq κ] (k : κ) : List (κ × β) → Option β
  | [] => none
  | (k', v) :: rest => if k' = k then some v else alookup k rest

/-- CPython `d[k] = v`: update the first occurrence in place, else append. -/
def aset {κ β : Type} [DecidableEq κ] (k : κ) (v : β) : List (κ × β) → List (κ × β)
  | [] => [(k, v)]
  | (k', v') :: rest => if k' = k then (k, v) :: rest else (k', v') :: aset k v rest

/-- CPython `del d[k]` (callers always guard with `k in d`; on a missing
key this is the identity, matching the guarded call sites). -/
def aerase {κ β : Type} [DecidableEq κ] (k : κ) : List (κ × β) → List (κ × β)
  | [] => []
  | (k', v') :: rest => if k' = k then rest else (k', v') :: aerase k rest

/-- Embeds the `WebSocketConnection` dataclass.  The `websocket` transport
handle is identified by `connection_id` (the source defines `__eq__` and
`__hash__` on `connection_id` alone); timestamps are integers. -/
structure WebSocketConnection where
  user_id : String
  connection_id : Nat
  connected_at : Int
  last_ping : Int
deriving DecidableEq, Repr

/-- The mutable state of the `ConnectionManager` instance.  `nextId` embeds
the `uuid.uuid4()` fresh-id source (globally unique by construction). -/
structure ConnectionManager where
  user_connections : List (String × List WebSocketConnection)
  connections : List (Nat × WebSocketConnection)
  project_subscriptions : List (String × List String)
  nextId : Nat
deriving DecidableEq, Repr

/-- The JSON frames the manager writes to a transport
(`json.dumps(message)` in `_send_to_connection`). -/
inductive Msg where
  | payload (body : String)
  | connected (connection_id : Nat) (user_id : String) (timestamp : Int)
  | user_status (user_id : String) (status : String) (timestamp : Int)
  | pong (timestamp : Int)
  | subscribed (project_id : String)
  | unsubscribed (project_id : String)
deriving DecidableEq, Repr

/-- A delivered frame: (receiving connection id, message). -/
abbrev Frame := Nat × Msg

/-- Transport-side behaviour, external to the manager state:
`clientConnected n` embeds `websocket.client_state.name == 'CONNECTED'`
for the transport of connection `n`; `sendOk n` embeds `send_text`
returning without raising; `now` embeds `datetime.utcnow()`. -/
structure Env where
  clientConnected : Nat → Bool
  sendOk : Nat → Bool
  now : Int

/-- The type of the recursive `self.disconnect` reference passed to the
send-side functions (returns the new state and the frames delivered by the
offline-status broadcast inside the disconnect). -/
abbrev Cb := ConnectionManager → WebSocketConnection → ConnectionManager × List Frame

/-- Embeds `ConnectionManager._send_to_connection` (lines 144-159): if the
transport is not CONNECTED, or `send_text` raises, `self.disconnect` (the
callback) is awaited and `False` returned; otherwise the frame is
delivered and `True` returned. -/
def send_to_connectionCb (env : Env) (cb : Cb) (st : ConnectionManager)
    (c : WebSocketConnection) (m : Msg) : (ConnectionManager × List Frame) × Bool :=
  if env.clientConnected c.connection_id then
    if env.sendOk c.connection_id then
      ((st, [(c.connection_id, m)]), true)
    else (cb st c, false)
  else (cb st c, false)

/-- Embeds the `for connection in self.user_connections[user_id]` loop of
`send_to_user` (lines 166-171).  CPython iterates the live list object by
an internal index while `_send_to_connection` may remove elements from the
very same list; we therefore look the list up again from the current state
at every step and read position `i`.  `steps` is the length of the list at
loop entry: the list can only shrink during the loop, so the iterator is
exhausted no later than after `steps` steps and the countdown never cuts
an iteration short.  Returns (state, delivered frames, `dead_connections`
accumulated in iteration order). -/
def sendLoopCb (env : Env) (cb : Cb) (u : String) (m : Msg) :
    Nat → Nat → ConnectionManager →
    ConnectionManager × List Frame × List WebSocketConnection
  | _, 0, st => (st, [], [])
  | i, steps + 1, st =>
    let lst := (alookup u st.user_connections).getD []
    if h : i < lst.length then
      let c := lst[i]
      let r1 := send_to_connectionCb env cb st c m
      let r2 := sendLoopCb env cb u m (i + 1) steps r1.1.1
      (r2.1, r1.1.2 ++ r2.2.1, if r1.2 then r2.2.2 else c :: r2.2.2)
    else (st, [], [])

/-- Embeds the `for connection in dead_connections: await self.disconnect`
loop of `send_to_user` (lines 174-175). -/
def deadLoopCb (cb : Cb) : List WebSocketConnection → ConnectionManager →
    ConnectionManager × List Frame
  | [], st => (st, [])
  | c :: rest, st =>
    let r1 := cb st c
    let r2 := deadLoopCb cb rest r1.1
    (r2.1, r1.2 ++ r2.2)

/-- Embeds `ConnectionManager.send_to_user` (lines 161-175). -/
def send_to_userCb (env : Env) (cb : Cb) (st : ConnectionManager)
    (u : String) (m : Msg) : ConnectionManager × List Frame :=
  match alookup u st.user_connections with
  | none => (st, [])
  | some lst =>
    let r1 := sendLoopCb env cb u m 0 lst.length st
    let r2 := deadLoopCb cb r1.2.2 r1.1
    (r2.1, r1.2.1 ++ r2.2)

/-- Embeds `if exclude_user_id and user_id == exclude_user_id: continue`
(line 183): Python truthiness makes `None` and the empty string disable
the exclusion. -/
def excludesUser (exclude_user_id : Option String) (u : String) : Bool :=
  match exclude_user_id with
  | none => false
  | some x => if x = "" then false else decide (u = x)

/-- Embeds the `for user_id in self.project_subscriptions[project_id]`
loop of `broadcast_to_project` (lines 182-185).  The subscription map is
never mutated by the send path (only `subscribe`/`unsubscribe`, which the
broadcast never reaches, touch it), so iterating the entry resolved at
loop entry is exact. -/
def broadcastLoopCb (env : Env) (cb : Cb) (m : Msg) (excl : Option String) :
    List String → ConnectionManager → ConnectionManager × List Frame
  | [], st => (st, [])
  | u :: rest, st =>
    if excludesUser excl u then broadcastLoopCb env cb m excl rest st
    else
      let r1 := send_to_userCb env cb st u m
      let r2 := broadcastLoopCb env cb m excl rest r1.1
      (r2.1, r1.2 ++ r2.2)

/-- Embeds `ConnectionManager.broadcast_to_project` (lines 177-185). -/
def broadcast_to_projectCb (env : Env) (cb : Cb) (st : ConnectionManager)
    (project_id : String) (m : Msg) (excl : Option String) :
    ConnectionManager × List Frame :=
  match alookup project_id st.project_subscriptions with
  | none => (st, [])
  | some users => broadcastLoopCb env cb m excl users st

/-- Embeds the `for project_id, users in self.project_subscriptions.items()`
loop of `_broadcast_user_status` (lines 233-235); as above the subscription
map is not mutated by anything the loop calls, so iterating the snapshot is
exact. -/
def busLoopCb (env : Env) (cb : Cb) (u : String) (m : Msg) :
    List (String × List String) → ConnectionManager →
    ConnectionManager × List Frame
  | [], st => (st, [])
  | (pid, users) :: rest, st =>
    if u ∈ users then
      let r1 := broadcast_to_projectCb env cb st pid m (some u)
      let r2 := busLoopCb env cb u m rest r1.1
      (r2.1, r1.2 ++ r2.2)
    else busLoopCb env cb u m rest st

/-- Embeds `ConnectionManager._broadcast_user_status` (lines 221-235). -/
def broadcast_user_statusCb (env : Env) (cb : Cb) (st : ConnectionManager)
    (u status : String) : ConnectionManager × List Frame :=
  busLoopCb env cb u (Msg.user_status u status env.now) st.project_subscriptions st

/-- Python `list.remove(connection)` with `__eq__` on `connection_id`:
removes the first element with the given id; identity when absent (the
source guards the call with `connection in ...`, and membership uses the
same `__eq__`). -/
def removeById (cid : Nat) : List WebSocketConnection → List WebSocketConnection
  | [] => []
  | c :: rest => if c.connection_id = cid then rest else c :: removeById cid rest

/-- Embeds the body of `ConnectionManager.disconnect` (lines 123-142) with
the recursive send path abstracted as `cb`.  Order matters and is kept:
the user entry is pruned and the offline status broadcast before the
connection is deleted from the global map. -/
def disconnectCore (env : Env) (cb : Cb) (st : ConnectionManager)
    (c : WebSocketConnection) : ConnectionManager × List Frame :=
  match alookup c.user_id st.user_connections with
  | none =>
    ({ st with connections := aerase c.connection_id st.connections }, [])
  | some lst =>
    let lst' := removeById c.connection_id lst
    if lst'.isEmpty then
      let st1 := { st with user_connections := aerase c.user_id st.user_connections }
      let r := broadcast_user_statusCb env cb st1 c.user_id "offline"
      ({ r.1 with connections := aerase c.connection_id r.1.connections }, r.2)
    else
      ({ st with user_connections := aset c.user_id lst' st.user_connections,
                 connections := aerase c.connection_id st.connections }, [])

/-- Embeds `ConnectionManager.disconnect`; `fuel` bounds the depth of
send-failure-triggered nested disconnects (see the header comment). -/
def disconnect (env : Env) : Nat → ConnectionManager → WebSocketConnection →
    ConnectionManager × List Frame
  | 0, st, c => disconnectCore env (fun s _ => (s, [])) st c
  | fuel + 1, st, c => disconnectCore env (disconnect env fuel) st c

/-- `_send_to_connection` with the recursive disconnect reference tied. -/
def send_to_connection (env : Env) (fuel : Nat) (st : ConnectionManager)
    (c : WebSocketConnection) (m : Msg) : (ConnectionManager × List Frame) × Bool :=
  send_to_connectionCb env (disconnect env fuel) st c m

/-- `send_to_user` with the recursive disconnect reference tied. -/
def send_to_user (env : Env) (fuel : Nat) (st : ConnectionManager)
    (u : String) (m : Msg) : ConnectionManager × List Frame :=
  send_to_userCb env (disconnect env fuel) st u m

/-- `broadcast_to_project` with the recursive disconnect reference tied. -/
def broadcast_to_project (env : Env) (fuel : Nat) (st : ConnectionManager)
    (project_id : String) (m : Msg) (excl : Option String) :
    ConnectionManager × List Frame :=
  broadcast_to_projectCb env (disconnect env fuel) st project_id m excl

/-- `_broadcast_user_status` with the recursive disconnect reference tied. -/
def broadcast_user_status (env : Env) (fuel : Nat) (st : ConnectionManager)
    (u status : String) : ConnectionManager × List Frame :=
  broadcast_user_statusCb env (disconnect env fuel) st u status

/-- Embeds `ConnectionManager.connect` (lines 80-121): accept the
transport (a failed accept re-raises before any state is touched, so it
does not contribute a state transition), register the fresh connection in
both maps, send the `connected` confirmation on the new connection, then
broadcast the user's online status.  Returns ((state, delivered frames),
the connection object handed back to the caller). -/
def connect (env : Env) (fuel : Nat) (st : ConnectionManager) (user_id : String) :
    (ConnectionManager × List Frame) × WebSocketConnection :=
  let connection_id := st.nextId
  let c : WebSocketConnection := ⟨user_id, connection_id, env.now, env.now⟩
  let lst := (alookup user_id st.user_connections).getD []
  let st1 : ConnectionManager :=
    { st with user_connections := aset user_id (lst ++ [c]) st.user_connections,
              connections := aset connection_id c st.connections,
              nextId := st.nextId + 1 }
  let r1 := send_to_connection env fuel st1 c (Msg.connected connection_id user_id env.now)
  let r2 := broadcast_user_status env fuel r1.1.1 user_id "online"
  ((r2.1, r1.1.2 ++ r2.2), c)

/-- Embeds `ConnectionManager.subscribe_to_project` (lines 187-193):
`set.add` on the (created-if-absent) subscriber set. -/
def subscribe_to_project (st : ConnectionManager) (user_id project_id : String) :
    ConnectionManager :=
  let s := (alookup project_id st.project_subscriptions).getD []
  let s' := if user_id ∈ s then s else s ++ [user_id]
  { st with project_subscriptions := aset project_id s' st.project_subscriptions }

/-- Python `set.discard`: remove if present, no error when absent. -/
def sdiscard (u : String) : List String → List String
  | [] => []
  | x :: rest => if x = u then rest else x :: sdiscard u rest

/-- Embeds `ConnectionManager.unsubscribe_from_project` (lines 195-204). -/
def unsubscribe_from_project (st : ConnectionManager) (user_id project_id : String) :
    ConnectionManager :=
  match alookup project_id st.project_subscriptions with
  | none => st
  | some s =>
    let s' := sdiscard user_id s
    if s'.isEmpty then
      { st with project_subscriptions := aerase project_id st.project_subscriptions }
    else
      { st with project_subscriptions := aset project_id s' st.project_subscriptions }

/-- `connection.last_ping = datetime.utcnow()` (line 243): the connection
object is shared by both registry maps, so the update is visible through
every occurrence. -/
def touchPing (st : ConnectionManager) (cid : Nat) (now : Int) : ConnectionManager :=
  { st with
    user_connections := st.user_connections.map
      (fun p => (p.1, p.2.map
        (fun c => if c.connection_id = cid then { c with last_ping := now } else c))),
    connections := st.connections.map
      (fun p => (p.1, if p.2.connection_id = cid then { p.2 with last_ping := now } else p.2)) }

/-- Embeds `ConnectionManager.handle_message` (lines 237-268).
`msgType` is `data.get("type", "")`; `project_id` is
`data.get("project_id")` where `none` is a missing key and the Python
truthiness test `if project_id:` also rejects the empty string.  The
final `else` only logs a warning: no frame is sent and nothing changes. -/
def handle_message (env : Env) (fuel : Nat) (st : ConnectionManager)
    (c : WebSocketConnection) (msgType : String) (project_id : Option String) :
    ConnectionManager × List Frame :=
  if msgType = "ping" then
    let st1 := touchPing st c.connection_id env.now
    let c1 := { c with last_ping := env.now }
    (send_to_connection env fuel st1 c1 (Msg.pong env.now)).1
  else if msgType = "subscribe_project" then
    match project_id with
    | none => (st, [])
    | some pid =>
      if pid = "" then (st, [])
      else
        let st1 := subscribe_to_project st c.user_id pid
        (send_to_connection env fuel st1 c (Msg.subscribed pid)).1
  else if msgType = "unsubscribe_project" then
    match project_id with
    | none => (st, [])
    | some pid =>
      if pid = "" then (st, [])
      else
        let st1 := unsubscribe_from_project st c.user_id pid
        (send_to_connection env fuel st1 c (Msg.unsubscribed pid)).1
  else
    (st, [])

/-- The aggregate returned by `get_connection_stats` (lines 270-284). -/
structure ConnectionStats where
  total_connections : Nat
  unique_users : Nat
  active_projects : Nat
  connections_per_user : List (String × Nat)
deriving DecidableEq, Repr

/-- Embeds `ConnectionManager.get_connection_stats`. -/
def get_connection_stats (st : ConnectionManager) : ConnectionStats :=
  ⟨st.connections.length, st.user_connections.length, st.project_subscriptions.length,
   st.user_connections.map (fun p => (p.1, p.2.length))⟩

/-- Embeds the loop `for connection in stale_connections: await
self.disconnect(connection)` of `cleanup_stale_connections` (295-297);
the stale list was collected before the loop, so it is iterated as-is. -/
def cleanupLoop (env : Env) (fuel : Nat) : List WebSocketConnection →
    ConnectionManager → ConnectionManager × List Frame
  | [], st => (st, [])
  | c :: rest, st =>
    let r1 := disconnect env fuel st c
    let r2 := cleanupLoop env fuel rest r1.1
    (r2.1, r1.2 ++ r2.2)

/-- Embeds `ConnectionManager.cleanup_stale_connections` (lines 286-299).
Returns ((state, frames delivered by offline-status broadcasts), the
count `len(stale_connections)`). -/
def cleanup_stale_connections (env : Env) (fuel : Nat) (st : ConnectionManager)
    (max_ping_age_minutes : Int) : (ConnectionManager × List Frame) × Nat :=
  let cutoff := env.now - max_ping_age_minutes * 60
  let stale := (st.connections.map Prod.snd).filter (fun c => decide (c.last_ping < cutoff))
  let r := cleanupLoop env fuel stale st
  ((r.1, r.2), stale.length)

/-- The spec's `subscribersOf(topicId)`: the resolved subscriber set,
empty when the topic is unknown (exactly the lookup `broadcast_to_project`
performs). -/
def subscribersOf (st : ConnectionManager) (p : String) : List String :=
  (alookup p st.project_subscriptions).getD []

/-- One external operation against the manager, for reachability
statements.  `connectOp`/`disconnectOp` carry the transport behaviour and
a cascade-depth bound of their step; `disconnectOp` disconnects the
registered connection with the given id (callers of the source hold
connection objects handed out at registration; disconnecting one that is
already unregistered is the no-op proved in the idempotence theorem). -/
inductive Op where
  | connectOp (env : Env) (fuel : Nat) (user_id : String)
  | disconnectOp (env : Env) (fuel : Nat) (cid : Nat)
  | subscribeOp (user_id project_id : String)
  | unsubscribeOp (user_id project_id : String)

/-- Apply one operation (the state part only). -/
def applyOp (st : ConnectionManager) : Op → ConnectionManager
  | .connectOp env fuel u => ((connect env fuel st u).1).1
  | .disconnectOp env fuel cid =>
    match alookup cid st.connections with
    | some c => (disconnect env fuel st c).1
    | none => st
  | .subscribeOp u p => subscribe_to_project st u p
  | .unsubscribeOp u p => unsubscribe_from_project st u p

/-- The freshly constructed manager (`ConnectionManager.__init__`). -/
def initialManager : ConnectionManager := ⟨[], [], [], 0⟩

/-- Run a sequence of operations from the initial state. -/
def runOps (ops : List Op) : ConnectionManager :=
  ops.foldl applyOp initialManager

/-! ### The send path never touches the subscription index

Every mutation of `project_subscriptions` in the source lives in
`subscribe_to_project` / `unsubscribe_from_project`, which the
disconnect/broadcast machinery never calls.  We prove it once for every
callback-parameterised function and tie the knot for `disconnect`. -/

/-- The callback (the recursive `disconnect` reference) leaves the
subscription index unchanged. -/
def PreservesSubs (cb : Cb) : Prop :=
  ∀ st c, ((cb st c).1).project_subscriptions = st.project_subscriptions

theorem subs_send_to_connectionCb {env : Env} {cb : Cb} (h : PreservesSubs cb)
    (st : ConnectionManager) (c : WebSocketConnection) (m : Msg) :
    (((send_to_connectionCb env cb st c m).1).1).project_subscriptions =
      st.project_subscriptions := by
  unfold send_to_connectionCb
  split <;> [skip; exact h st c]
  split <;> [rfl; exact h st c]

theorem subs_sendLoopCb {env : Env} {cb : Cb} (h : PreservesSubs cb)
    (u : String) (m : Msg) :
    ∀ (steps i : Nat) (st : ConnectionManager),
      ((sendLoopCb env cb u m i steps st).1).project_subscriptions =
        st.project_subscriptions := by
  intro steps
  induction steps with
  | zero => intro i st; rfl
  | succ n ih =>
    intro i st
    unfold sendLoopCb
    dsimp only
    split
    · exact (ih (i + 1) _).trans (subs_send_to_connectionCb h st _ m)
    · rfl

theorem subs_deadLoopCb {cb : Cb} (h : PreservesSubs cb) :
    ∀ (cs : List WebSocketConnection) (st : ConnectionManager),
      ((deadLoopCb cb cs st).1).project_subscriptions = st.project_subscriptions := by
  intro cs
  induction cs with
  | nil => intro st; rfl
  | cons c rest ih => intro st; exact (ih _).trans (h st c)

theorem subs_send_to_userCb {env : Env} {cb : Cb} (h : PreservesSubs cb)
    (st : ConnectionManager) (u : String) (m : Msg) :
    ((send_to_userCb env cb st u m).1).project_subscriptions =
      st.project_subscriptions := by
  unfold send_to_userCb
  split
  · rfl
  · exact (subs_deadLoopCb h _ _).trans (subs_sendLoopCb h u m _ 0 st)

theorem subs_broadcastLoopCb {env : Env} {cb : Cb} (h : PreservesSubs cb)
    (m : Msg) (excl : Option String) :
    ∀ (users : List String) (st : ConnectionManager),
      ((broadcastLoopCb env cb m excl users st).1).project_subscriptions =
        st.project_subscriptions := by
  intro users
  induction users with
  | nil => intro st; rfl
  | cons u rest ih =>
    intro st
    unfold broadcastLoopCb
    split
    · exact ih st
    · exact (ih _).trans (subs_send_to_userCb h st u m)

theorem subs_broadcast_to_projectCb {env : Env} {cb : Cb} (h : PreservesSubs cb)
    (st : ConnectionManager) (p : String) (m : Msg) (excl : Option String) :
    ((broadcast_to_projectCb env cb st p m excl).1).project_subscriptions =
      st.project_subscriptions := by
  unfold broadcast_to_projectCb
  split
  · rfl
  · exact subs_broadcastLoopCb h m excl _ st

theorem subs_busLoopCb {env : Env} {cb : Cb} (h : PreservesSubs cb)
    (u : String) (m : Msg) :
    ∀ (entries : List (String × List String)) (st : ConnectionManager),
      ((busLoopCb env cb u m entries st).1).project_subscriptions =
        st.project_subscriptions := by
  intro entries
  induction entries with
  | nil => intro st; rfl
  | cons e rest ih =>
    intro st
    unfold busLoopCb
    split
    · exact (ih _).trans (subs_broadcast_to_projectCb h st _ m _)
    · exact ih st

theorem subs_broadcast_user_statusCb {env : Env} {cb : Cb} (h : PreservesSubs cb)
    (st : ConnectionManager) (u status : String) :
    ((broadcast_user_statusCb env cb st u status).1).project_subscriptions =
      st.project_subscriptions := by
  unfold broadcast_user_statusCb
  exact subs_busLoopCb h u _ _ st

theorem subs_disconnectCore {env : Env} {cb : Cb} (h : PreservesSubs cb)
    (st : ConnectionManager) (c : WebSocketConnection) :
    ((disconnectCore env cb st c).1).project_subscriptions =
      st.project_subscriptions := by
  unfold disconnectCore
  split
  · rfl
  · dsimp only
    split
    · exact subs_broadcast_user_statusCb h _ c.user_id "offline"
    · rfl

theorem subs_disconnect (env : Env) :
    ∀ (fuel : Nat) (st : ConnectionManager) (c : WebSocketConnection),
      ((disconnect env fuel st c).1).project_subscriptions =
        st.project_subscriptions := by
  intro fuel
  induction fuel with
  | zero => intro st c; exact subs_disconnectCore (fun _ _ => rfl) st c
  | succ n ih => intro st c; exact subs_disconnectCore (fun s x => ih s x) st c

theorem subs_cleanupLoop (env : Env) (fuel : Nat) :
    ∀ (cs : List WebSocketConnection) (st : ConnectionManager),
      ((cleanupLoop env fuel cs st).1).project_subscriptions =
        st.project_subscriptions := by
  intro cs
  induction cs with
  | nil => intro st; rfl
  | cons c rest ih => intro st; exact (ih _).trans (subs_disconnect env fuel st c)

theorem subs_cleanup (env : Env) (fuel : Nat) (st : ConnectionManager) (d : Int) :
    (((cleanup_stale_connections env fuel st d).1).1).project_subscriptions =
      st.project_subscriptions := by
  unfold cleanup_stale_connections
  exact subs_cleanupLoop env fuel _ st

/-! ### Concrete transports and states used by counterexamples and witnesses -/

/-- An environment in which every transport is CONNECTED and every send
succeeds, at clock 0. -/
def envLive : Env := ⟨fun _ => true, fun _ => true, 0⟩

/-!
## Claim C4 — corrected

The claim says unregistering the sole subscriber's last connection removes
the topic entry.  `disconnect` (and the stale sweep, which only calls
`disconnect`) never touches `project_subscriptions`: the entry survives.
-/

/-- The connection of user `"u1"`, sole subscriber of `"p1"`. -/
def C4c : WebSocketConnection := ⟨"u1", 1, 0, 0⟩

/-- `"u1"` has exactly one connection and is the sole subscriber of `"p1"`. -/
def C4st : ConnectionManager := ⟨[("u1", [C4c])], [(1, C4c)], [("p1", ["u1"])], 2⟩

/-- C4 counterexample: disconnecting the sole subscriber's last connection
empties both registry maps, yet the topic entry for `"p1"` is still present
and `subscribersOf "p1"` still contains `"u1"` — the claim asserted the
topic would be absent and its subscriber set empty. -/
theorem C4_counterexample :
    ((disconnect envLive 5 C4st C4c).1).user_connections = [] ∧
    ((disconnect envLive 5 C4st C4c).1).connections = [] ∧
    ((disconnect envLive 5 C4st C4c).1).project_subscriptions = [("p1", ["u1"])] ∧
    subscribersOf ((disconnect envLive 5 C4st C4c).1) "p1" = ["u1"] := by
  constructor
  · rfl
  constructor
  · rfl
  constructor
  · rfl
  · rfl

/-- C4 (amended): unregistering a connection — by explicit disconnect or by
the stale-connection sweep — leaves the subscription index completely
unchanged, whatever the transport behaviour and cascade depth; in
particular the topic entry of a sole subscriber survives the loss of that
subscriber's last connection, and topic entries are removed only by an
explicit unsubscribe. -/
theorem C4_disconnect_preserves_subscriptions :
    ∀ (env : Env) (fuel : Nat) (st : ConnectionManager) (c : WebSocketConnection) (d : Int),
      ((disconnect env fuel st c).1).project_subscriptions = st.project_subscriptions ∧
      (((cleanup_stale_connections env fuel st d).1).1).project_subscriptions =
        st.project_subscriptions :=
  fun env fuel st c d => ⟨subs_disconnect env fuel st c, subs_cleanup env fuel st d⟩

/-!
## Claim C2 — code bug

`send_to_user` iterates the live list `self.user_connections[user_id]`
while `_send_to_connection` immediately disconnects a failed connection,
which removes it from that very list.  CPython's list iterator then skips
the element that slid into the freed slot: after a failure on the first of
two connections, the second (perfectly live) connection is never sent to.
The vestigial `dead_connections` deferred-cleanup list in the source shows
the intended design (collect failures, disconnect after the loop), and the
spec demands delivery to the remaining connections, so this is a slip in
the code rather than intended behaviour.
-/

/-- First connection of `"u1"`: its transport is not CONNECTED. -/
def C2c1 : WebSocketConnection := ⟨"u1", 1, 0, 0⟩

/-- Second connection of `"u1"`: fully live. -/
def C2c2 : WebSocketConnection := ⟨"u1", 2, 0, 0⟩

/-- Transport behaviour: connection 1 reports a non-open state, everything
else is live and every send succeeds. -/
def C2env : Env := ⟨fun n => decide (n ≠ 1), fun _ => true, 0⟩

/-- `"u1"` has connections `[c1, c2]` in that order and is the sole
subscriber of `"p1"`. -/
def C2st : ConnectionManager := ⟨[("u1", [C2c1, C2c2])], [(1, C2c1), (2, C2c2)], [("p1", ["u1"])], 3⟩

/-- C2 failing run: broadcasting on `"p1"` hits the dead connection 1,
which is unregistered from both maps as the claim says — but the delivered
frame list is empty: the live connection 2, still registered afterwards,
never receives the event, because removing connection 1 from the list
being iterated made the loop skip connection 2. -/
theorem C2_code_bug_skipped_connection :
    (broadcast_to_project C2env 5 C2st "p1" (Msg.payload "e") none).2 = [] ∧
    (broadcast_to_project C2env 5 C2st "p1" (Msg.payload "e") none).1 =
      ⟨[("u1", [C2c2])], [(2, C2c2)], [("p1", ["u1"])], 3⟩ := by
  constructor
  · rfl
  · rfl

/-!
## Claim C3 — corrected

The dispatcher's `else` branch (line 267-268) only writes a log warning:
no `error` frame — indeed no frame at all — is sent back, though the claim
(and spec) promise exactly one error frame.  The no-state-change and
no-close parts hold.
-/

/-- A registered connection for the C3 scenario. -/
def C3c : WebSocketConnection := ⟨"u1", 1, 0, 0⟩

/-- A small well-formed state for the C3 scenario. -/
def C3st : ConnectionManager := ⟨[("u1", [C3c])], [(1, C3c)], [("p1", ["u1"])], 2⟩

/-- C3 counterexample: handling the unrecognized frame
`{"type":"frobnicate"}` delivers no frame whatsoever (zero frames, not the
promised single `error` frame) and leaves the state untouched. -/
theorem C3_counterexample :
    handle_message envLive 5 C3st C3c "frobnicate" none = (C3st, []) ∧
    (handle_message envLive 5 C3st C3c "frobnicate" none).2.length = 0 := by
  constructor
  · rfl
  · rfl

/-- C3 (amended): for every inbound frame whose kind is not `ping`,
`subscribe_project` or `unsubscribe_project`, the dispatcher changes no
registry or subscription state, does not close the connection, and emits
no frame at all (the unknown kind is only logged) — rather than emitting
an `error` frame. -/
theorem C3_unknown_type_is_silent (env : Env) (fuel : Nat) (st : ConnectionManager)
    (c : WebSocketConnection) (t : String) (pid : Option String)
    (h1 : t ≠ "ping") (h2 : t ≠ "subscribe_project") (h3 : t ≠ "unsubscribe_project") :
    handle_message env fuel st c t pid = (st, []) := by
  unfold handle_message
  rw [if_neg h1, if_neg h2, if_neg h3]

/-- C3 witness: the amended theorem applied to the concrete frame
`{"type":"frobnicate"}` on a live connection. -/
theorem C3_witness :
    ("frobnicate" ≠ "ping" ∧ "frobnicate" ≠ "subscribe_project" ∧
      "frobnicate" ≠ "unsubscribe_project") ∧
    handle_message envLive 3 C3st C3c "frobnicate" none = (C3st, []) :=
  ⟨⟨by decide, by decide, by decide⟩,
   C3_unknown_type_is_silent envLive 3 C3st C3c "frobnicate" none
     (by decide) (by decide) (by decide)⟩

/-!
## Claim C10 — confirmed

`handle_message` guards both subscription branches with Python truthiness
(`if project_id:`): a missing (`None`) or empty-string project id short-
circuits the branch with no state change and no response frame of any
kind.
-/

/-- C10: handling a `subscribe_project` or `unsubscribe_project` frame
whose `project_id` is missing (`none`) or empty (falsy) leaves the state
completely unchanged and emits no frame — no acknowledgement and no
error. -/
theorem C10_falsy_project_id_is_noop (env : Env) (fuel : Nat) (st : ConnectionManager)
    (c : WebSocketConnection) (pid : Option String) (h : pid = none ∨ pid = some "") :
    handle_message env fuel st c "subscribe_project" pid = (st, []) ∧
    handle_message env fuel st c "unsubscribe_project" pid = (st, []) := by
  rcases h with rfl | rfl <;> constructor <;> simp [handle_message]

/-- C10 witness: the theorem applied at a concrete state with a missing
project id. -/
theorem C10_witness :
    ((none : Option String) = none ∨ (none : Option String) = some "") ∧
    (handle_message envLive 3 C3st C3c "subscribe_project" none = (C3st, []) ∧
     handle_message envLive 3 C3st C3c "unsubscribe_project" none = (C3st, [])) :=
  ⟨Or.inl rfl, C10_falsy_project_id_is_noop envLive 3 C3st C3c none (Or.inl rfl)⟩

/-!
## Claim C5 — corrected (counterexample part)

`connect` registers the fresh connection and then (line 107) immediately
sends a `connected` confirmation frame on it, and (line 119) broadcasts
the user's online status; the claim says registration sends no frame on
any connection.
-/

/-- C5 counterexample: registering the very first connection from the
pristine state delivers a `connected` confirmation frame on the new
connection — not zero frames. -/
theorem C5_counterexample :
    ((connect envLive 5 initialManager "u1").1).2 = [(0, Msg.connected 0 "u1" 0)] ∧
    ((connect envLive 5 initialManager "u1").1).2.length = 1 := by
  constructor
  · rfl
  · rfl

/-!
## Claim C1 — corrected (counterexample part)

The exclusion test (line 183) is `if exclude_user_id and user_id ==
exclude_user_id`, so an empty-string excluded id is falsy and disables the
exclusion entirely: the excluded user's own connections are delivered to.
-/

/-- The sole connection of the empty-named user. -/
def C1c : WebSocketConnection := ⟨"", 1, 0, 0⟩

/-- User `""` is the sole subscriber of `"p1"` and owns connection 1. -/
def C1st : ConnectionManager := ⟨[("", [C1c])], [(1, C1c)], [("p1", [""])], 2⟩

/-- C1 counterexample: broadcasting on `"p1"` with excluded user `X = ""`
(who is the sole subscriber) delivers the event to `X`'s own connection —
the claim requires that no copy reach any connection of `X`. -/
theorem C1_counterexample :
    (broadcast_to_project envLive 5 C1st "p1" (Msg.payload "e") (some "")).2 =
      [(1, Msg.payload "e")] := by
  rfl

/-! ### Executions in which every send succeeds

When every transport is CONNECTED and no `send_text` raises, the send path
never reaches `disconnect`: the state is untouched and the delivered
frames are exactly the fan-out the loops enumerate.  These lemmas hold for
every callback and every fuel because the callback is never invoked. -/

/-- Every transport is CONNECTED and every send succeeds. -/
def AllLive (env : Env) : Prop :=
  ∀ n, env.clientConnected n = true ∧ env.sendOk n = true

/-- The frames one `send_to_user` call delivers when nothing fails: one
copy of `m` per connection of `u`, in list order. -/
def userFrames (st : ConnectionManager) (u : String) (m : Msg) : List Frame :=
  ((alookup u st.user_connections).getD []).map (fun c => (c.connection_id, m))

theorem live_send_to_connectionCb {env : Env} {cb : Cb} (h : AllLive env)
    (st : ConnectionManager) (c : WebSocketConnection) (m : Msg) :
    send_to_connectionCb env cb st c m = ((st, [(c.connection_id, m)]), true) := by
  unfold send_to_connectionCb
  rw [(h c.connection_id).1, (h c.connection_id).2]
  rfl

theorem live_sendLoopCb {env : Env} {cb : Cb} (h : AllLive env)
    (u : String) (m : Msg) :
    ∀ (steps i : Nat) (st : ConnectionManager),
      sendLoopCb env cb u m i steps st =
        (st, ((((alookup u st.user_connections).getD []).drop i).take steps).map
          (fun c => (c.connection_id, m)), []) := by
  intro steps
  induction steps with
  | zero =>
    intro i st
    simp [sendLoopCb]
  | succ n ih =>
    intro i st
    unfold sendLoopCb
    dsimp only
    split
    · rename_i hlt
      rw [live_send_to_connectionCb h, ih (i + 1) st]
      rw [List.drop_eq_getElem_cons hlt]
      rfl
    · rename_i hge
      rw [List.drop_eq_nil_of_le (Nat.le_of_not_lt hge)]
      rfl

theorem live_send_to_userCb {env : Env} {cb : Cb} (h : AllLive env)
    (st : ConnectionManager) (u : String) (m : Msg) :
    send_to_userCb env cb st u m = (st, userFrames st u m) := by
  unfold send_to_userCb userFrames
  split
  · rename_i heq; rw [heq]; rfl
  · rename_i lst heq
    rw [live_sendLoopCb h u m lst.length 0 st, heq]
    simp [deadLoopCb]

/-- The frames a fully successful broadcast delivers: for each
non-excluded user in order, one copy of `m` per connection of that user. -/
def fanOut (st : ConnectionManager) (m : Msg) (excl : Option String) :
    List String → List Frame
  | [] => []
  | u :: rest =>
    (if excludesUser excl u then [] else userFrames st u m) ++ fanOut st m excl rest

theorem live_broadcastLoopCb {env : Env} {cb : Cb} (h : AllLive env)
    (m : Msg) (excl : Option String) :
    ∀ (users : List String) (st : ConnectionManager),
      broadcastLoopCb env cb m excl users st = (st, fanOut st m excl users) := by
  intro users
  induction users with
  | nil => intro st; rfl
  | cons u rest ih =>
    intro st
    unfold broadcastLoopCb fanOut
    split
    · rename_i hex
      rw [ih st]
      rfl
    · rename_i hex
      rw [live_send_to_userCb h st u m]
      dsimp only
      rw [ih st]

theorem live_broadcast_to_projectCb (cb : Cb) {env : Env} (h : AllLive env)
    (st : ConnectionManager) (p : String) (m : Msg) (excl : Option String) :
    broadcast_to_projectCb env cb st p m excl =
      (st, fanOut st m excl (subscribersOf st p)) := by
  unfold broadcast_to_projectCb subscribersOf
  split
  · rename_i heq; rw [heq]; rfl
  · rename_i users heq
    rw [live_broadcastLoopCb h m excl users st, heq]
    rfl

theorem live_busLoopCb {env : Env} {cb : Cb} (h : AllLive env)
    (u : String) (m : Msg) :
    ∀ (entries : List (String × List String)) (st : ConnectionManager),
      (busLoopCb env cb u m entries st).1 = st := by
  intro entries
  induction entries with
  | nil => intro st; rfl
  | cons e rest ih =>
    intro st
    unfold busLoopCb
    split
    · rw [live_broadcast_to_projectCb cb h st e.1 m (some u)]
      exact ih st
    · exact ih st

theorem live_broadcast_user_statusCb {env : Env} {cb : Cb} (h : AllLive env)
    (st : ConnectionManager) (u status : String) :
    (broadcast_user_statusCb env cb st u status).1 = st :=
  live_busLoopCb h u _ st.project_subscriptions st

/-- A user subscribed to no project triggers no status broadcast at all
(the membership test fails on every topic entry), whatever the transports
do. -/
theorem busLoopCb_not_member {env : Env} {cb : Cb} (u : String) (m : Msg) :
    ∀ (entries : List (String × List String)) (st : ConnectionManager),
      (∀ p ∈ entries, u ∉ p.2) → busLoopCb env cb u m entries st = (st, []) := by
  intro entries
  induction entries with
  | nil => intro st _; rfl
  | cons e rest ih =>
    intro st hmem
    unfold busLoopCb
    split
    · rename_i hin
      exact absurd hin (hmem e (List.mem_cons_self e rest))
    · exact ih st (fun p hp => hmem p (List.mem_cons_of_mem e hp))

/-- The pure registry part of `disconnect` (lines 128-140 without the
offline-status broadcast, which cannot change state when no send fails). -/
def removeConn (st : ConnectionManager) (c : WebSocketConnection) : ConnectionManager :=
  match alookup c.user_id st.user_connections with
  | none => { st with connections := aerase c.connection_id st.connections }
  | some lst =>
    let lst' := removeById c.connection_id lst
    if lst'.isEmpty then
      { st with user_connections := aerase c.user_id st.user_connections,
                connections := aerase c.connection_id st.connections }
    else
      { st with user_connections := aset c.user_id lst' st.user_connections,
                connections := aerase c.connection_id st.connections }

theorem live_disconnectCore_state {env : Env} {cb : Cb} (h : AllLive env)
    (st : ConnectionManager) (c : WebSocketConnection) :
    (disconnectCore env cb st c).1 = removeConn st c := by
  unfold disconnectCore removeConn
  split
  · rfl
  · dsimp only
    split
    · rw [show (broadcast_user_statusCb env cb
        { st with user_connections := aerase c.user_id st.user_connections }
        c.user_id "offline").1 =
          { st with user_connections := aerase c.user_id st.user_connections } from
        live_broadcast_user_statusCb h _ c.user_id "offline"]
    · rfl

theorem live_disconnect_state (env : Env) (h : AllLive env) :
    ∀ (fuel : Nat) (st : ConnectionManager) (c : WebSocketConnection),
      (disconnect env fuel st c).1 = removeConn st c := by
  intro fuel
  cases fuel with
  | zero => intro st c; exact live_disconnectCore_state h st c
  | succ n => intro st c; exact live_disconnectCore_state h st c

/-!
## Claim C5 — amended theorem

Registration's bookkeeping is exactly the two map updates plus the fresh-id
bump; but the source also sends a `connected` confirmation frame on the new
connection and then broadcasts the user's online status.  When the user is
subscribed to no project (e.g. any brand-new user) and the transport is
live, the delivered frames are exactly the single confirmation frame.
-/

/-- C5 (amended): for a live transport and a user subscribed to no
project, `connect` mutates exactly the registry bookkeeping — it appends
the fresh connection to the user's list and stores it in the global map
under the fresh id — and, contrary to the claim's "no frame", delivers
exactly one frame: the `connected` confirmation on the new connection
(for a subscribed user an online user-status broadcast would follow). -/
theorem C5_connect_bookkeeping_and_confirmation (env : Env) (fuel : Nat)
    (st : ConnectionManager) (u : String) (hlive : AllLive env)
    (hns : ∀ p ∈ st.project_subscriptions, u ∉ p.2) :
    connect env fuel st u =
      (({ st with
            user_connections := aset u
              (((alookup u st.user_connections).getD []) ++ [⟨u, st.nextId, env.now, env.now⟩])
              st.user_connections,
            connections := aset st.nextId ⟨u, st.nextId, env.now, env.now⟩ st.connections,
            nextId := st.nextId + 1 },
         [(st.nextId, Msg.connected st.nextId u env.now)]),
       ⟨u, st.nextId, env.now, env.now⟩) := by
  unfold connect send_to_connection broadcast_user_status broadcast_user_statusCb
  dsimp only
  rw [live_send_to_connectionCb hlive]
  rw [busLoopCb_not_member u _ _ _ hns]
  rfl

/-- C5 witness: the amended theorem applied to the pristine state. -/
theorem C5_witness :
    (AllLive envLive ∧ ∀ p ∈ initialManager.project_subscriptions, "u1" ∉ p.2) ∧
    connect envLive 3 initialManager "u1" =
      ((⟨[("u1", [⟨"u1", 0, 0, 0⟩])], [(0, ⟨"u1", 0, 0, 0⟩)], [], 1⟩,
        [(0, Msg.connected 0 "u1" 0)]), ⟨"u1", 0, 0, 0⟩) :=
  ⟨⟨fun _ => ⟨rfl, rfl⟩, by simp [initialManager]⟩,
   C5_connect_bookkeeping_and_confirmation envLive 3 initialManager "u1"
     (fun _ => ⟨rfl, rfl⟩) (by simp [initialManager])⟩

/-! ### Association-list facts -/

theorem alookup_mem {κ β : Type} [DecidableEq κ] {l : List (κ × β)} {k : κ} {v : β}
    (h : alookup k l = some v) : (k, v) ∈ l := by
  induction l with
  | nil => exact absurd h (by simp [alookup])
  | cons e rest ih =>
    obtain ⟨k', v'⟩ := e
    rw [alookup] at h
    split at h
    · rename_i hk
      injection h with hv
      subst hk
      subst hv
      exact List.mem_cons_self _ _
    · exact List.mem_cons_of_mem _ (ih h)

theorem alookup_eq_of_mem {κ β : Type} [DecidableEq κ] {l : List (κ × β)} {k : κ} {v : β}
    (hnd : (l.map Prod.fst).Nodup) (hm : (k, v) ∈ l) : alookup k l = some v := by
  induction l with
  | nil => exact absurd hm (by simp)
  | cons e rest ih =>
    rcases List.mem_cons.mp hm with heq | hmem
    · rw [← heq, alookup, if_pos rfl]
    · rw [alookup]
      split
      · rename_i hk
        exfalso
        have : k ∈ rest.map Prod.fst := List.mem_map.mpr ⟨(k, v), hmem, rfl⟩
        rw [← hk] at this
        exact (List.nodup_cons.mp hnd).1 this
      · exact ih (List.nodup_cons.mp hnd).2 hmem

theorem alookup_eq_none_iff {κ β : Type} [DecidableEq κ] {l : List (κ × β)} {k : κ} :
    alookup k l = none ↔ k ∉ l.map Prod.fst := by
  induction l with
  | nil => simp [alookup]
  | cons e rest ih =>
    rw [alookup]
    split
    · rename_i hk
      simp [← hk]
    · rename_i hk
      simp only [List.map_cons, List.mem_cons, ih]
      constructor
      · intro h hor
        rcases hor with h1 | h2
        · exact hk h1.symm
        · exact h h2
      · intro h h2
        exact h (Or.inr h2)

theorem value_unique {κ β : Type} [DecidableEq κ] {l : List (κ × β)} {k : κ} {a b : β}
    (hnd : (l.map Prod.fst).Nodup) (ha : (k, a) ∈ l) (hb : (k, b) ∈ l) : a = b := by
  have h1 := alookup_eq_of_mem hnd ha
  have h2 := alookup_eq_of_mem hnd hb
  rw [h1] at h2
  exact Option.some_inj.mp h2

/-! ### Registry well-formedness

These predicates hold in every state the manager can actually reach
(proved below for the operation semantics); several claims quantify over
"every state", which we read as every such well-formed state. -/

/-- The multiset of connections stored across all user lists. -/
def allConns (st : ConnectionManager) : List WebSocketConnection :=
  (st.user_connections.map Prod.snd).flatten

/-- The user-side portion of the registry invariant: unique keys, no empty
entry at rest, every stored connection is filed under its owner, and no
connection id occurs twice across the user lists. -/
structure CInv (st : ConnectionManager) : Prop where
  uc_keys : (st.user_connections.map Prod.fst).Nodup
  conn_keys : (st.connections.map Prod.fst).Nodup
  uc_nonempty : ∀ p ∈ st.user_connections, p.2 ≠ []
  uc_owner : ∀ p ∈ st.user_connections, ∀ c ∈ p.2, c.user_id = p.1
  ids_nodup : ((allConns st).map WebSocketConnection.connection_id).Nodup

/-- Full registry/subscription well-formedness: `CInv` plus subscription
hygiene, key-field agreement in the connection map, the user lists and the
connection map holding the same multiset of connections, and all ids below
the fresh-id counter. -/
structure WF (st : ConnectionManager) : Prop where
  cinv : CInv st
  sub_keys : (st.project_subscriptions.map Prod.fst).Nodup
  sub_nonempty : ∀ p ∈ st.project_subscriptions, p.2 ≠ []
  sub_nodup : ∀ p ∈ st.project_subscriptions, p.2.Nodup
  conn_ids : ∀ q ∈ st.connections, q.2.connection_id = q.1
  conn_perm : (allConns st).Perm (st.connections.map Prod.snd)
  ids_lt : ∀ q ∈ st.connections, q.1 < st.nextId

theorem mem_allConns_of_mem {st : ConnectionManager}
    {p : String × List WebSocketConnection} {c : WebSocketConnection}
    (hp : p ∈ st.user_connections) (hc : c ∈ p.2) : c ∈ allConns st := by
  unfold allConns
  rw [List.mem_flatten]
  exact ⟨p.2, List.mem_map_of_mem Prod.snd hp, hc⟩

theorem exists_entry_of_mem_allConns {st : ConnectionManager} {c : WebSocketConnection}
    (h : c ∈ allConns st) : ∃ p ∈ st.user_connections, c ∈ p.2 := by
  unfold allConns at h
  rw [List.mem_flatten] at h
  obtain ⟨s, hs, hc⟩ := h
  obtain ⟨p, hp, heq⟩ := List.mem_map.mp hs
  exact ⟨p, hp, heq ▸ hc⟩

theorem sublist_flatten_of_mem {α : Type} {l : List α} :
    ∀ {ls : List (List α)}, l ∈ ls → l.Sublist ls.flatten := by
  intro ls
  induction ls with
  | nil => intro h; exact absurd h (by simp)
  | cons a as ih =>
    intro h
    rcases List.mem_cons.mp h with heq | hmem
    · rw [heq, List.flatten_cons]
      exact List.sublist_append_left a as.flatten
    · rw [List.flatten_cons]
      exact (ih hmem).trans (List.sublist_append_right a as.flatten)

/-- In a well-formed state, the number of times id `cid` occurs in user
`u`'s connection list is `1` when the global map files `cid` under owner
`u`, else `0`. -/
theorem count_id_in_user_list {st : ConnectionManager} (hwf : WF st)
    (u : String) (cid : Nat) :
    (((alookup u st.user_connections).getD []).map WebSocketConnection.connection_id).count cid =
      (match alookup cid st.connections with
       | some c => if c.user_id = u then 1 else 0
       | none => 0) := by
  cases hu : alookup u st.user_connections with
  | none =>
    simp only [Option.getD_none, List.map_nil, List.count_nil]
    cases hc : alookup cid st.connections with
    | none => rfl
    | some c =>
      dsimp only
      rw [if_neg]
      intro hcu
      have hcv : c ∈ st.connections.map Prod.snd :=
        List.mem_map_of_mem Prod.snd (alookup_mem hc)
      have hca : c ∈ allConns st := hwf.conn_perm.mem_iff.mpr hcv
      obtain ⟨p, hp, hcp⟩ := exists_entry_of_mem_allConns hca
      have howner := hwf.cinv.uc_owner p hp c hcp
      have : u ∈ st.user_connections.map Prod.fst :=
        List.mem_map.mpr ⟨p, hp, by rw [← howner, hcu]⟩
      exact (alookup_eq_none_iff.mp hu) this
  | some l =>
    simp only [Option.getD_some]
    have hul : (u, l) ∈ st.user_connections := alookup_mem hu
    by_cases hin : cid ∈ l.map WebSocketConnection.connection_id
    · obtain ⟨c', hc'l, hc'id⟩ := List.mem_map.mp hin
      have hca : c' ∈ allConns st := mem_allConns_of_mem hul hc'l
      have hcv : c' ∈ st.connections.map Prod.snd := hwf.conn_perm.mem_iff.mp hca
      obtain ⟨q, hq, hq2⟩ := List.mem_map.mp hcv
      have hq1 : q.1 = cid := by
        have := hwf.conn_ids q hq
        rw [hq2] at this
        rw [← this, hc'id]
      have hlook : alookup cid st.connections = some c' := by
        have : ((cid, c') : Nat × WebSocketConnection) ∈ st.connections := by
          have : q = (cid, c') := by
            rw [Prod.ext_iff]
            exact ⟨hq1, hq2⟩
          rw [← this]
          exact hq
        exact alookup_eq_of_mem hwf.cinv.conn_keys this
      rw [hlook]
      dsimp only
      have howner : c'.user_id = u := hwf.cinv.uc_owner (u, l) hul c' hc'l
      rw [if_pos howner]
      have hle : (l.map WebSocketConnection.connection_id).count cid ≤ 1 := by
        have hsubl : l.Sublist (allConns st) := by
          have : l ∈ st.user_connections.map Prod.snd :=
            List.mem_map_of_mem Prod.snd hul
          exact sublist_flatten_of_mem this
        have hsubm := hsubl.map WebSocketConnection.connection_id
        exact le_trans (hsubm.count_le cid)
          (List.nodup_iff_count_le_one.mp hwf.cinv.ids_nodup cid)
      have hge : 1 ≤ (l.map WebSocketConnection.connection_id).count cid :=
        List.one_le_count_iff.mpr hin
      exact le_antisymm hle hge
    · rw [List.count_eq_zero.mpr hin]
      cases hc : alookup cid st.connections with
      | none => rfl
      | some c =>
        dsimp only
        rw [if_neg]
        intro hcu
        have hcv : c ∈ st.connections.map Prod.snd :=
          List.mem_map_of_mem Prod.snd (alookup_mem hc)
        have hca : c ∈ allConns st := hwf.conn_perm.mem_iff.mpr hcv
        obtain ⟨p, hp, hcp⟩ := exists_entry_of_mem_allConns hca
        have howner := hwf.cinv.uc_owner p hp c hcp
        have hpu : p = (u, l) := by
          have h1 : (p.1, p.2) ∈ st.user_connections := by
            rw [Prod.mk.eta]; exact hp
          have h2 : p.1 = u := by rw [← howner, hcu]
          rw [h2] at h1
          have := value_unique hwf.cinv.uc_keys h1 hul
          rw [Prod.ext_iff]
          exact ⟨h2, this⟩
        have hcid : c.connection_id = cid := hwf.conn_ids (cid, c) (alookup_mem hc)
        apply hin
        rw [← hcid]
        apply List.mem_map_of_mem WebSocketConnection.connection_id
        rw [hpu] at hcp
        exact hcp

theorem count_pairs (lst : List WebSocketConnection) (m : Msg) (cid : Nat) :
    (lst.map (fun c => ((c.connection_id, m) : Frame))).count (cid, m) =
      (lst.map WebSocketConnection.connection_id).count cid := by
  induction lst with
  | nil => rfl
  | cons c rest ih =>
    simp only [List.map_cons, List.count_cons, ih]
    by_cases hceq : c.connection_id = cid
    · simp [hceq]
    · simp [hceq, Prod.ext_iff]

theorem count_userFrames {st : ConnectionManager} (u : String) (m : Msg) (cid : Nat) :
    (userFrames st u m).count (cid, m) =
      (((alookup u st.user_connections).getD []).map WebSocketConnection.connection_id).count cid :=
  count_pairs _ m cid

theorem fanOut_msg {st : ConnectionManager} {m : Msg} {excl : Option String} :
    ∀ {users : List String} {f : Frame}, f ∈ fanOut st m excl users → f.2 = m := by
  intro users
  induction users with
  | nil => intro f h; exact absurd h (by simp [fanOut])
  | cons u rest ih =>
    intro f h
    rw [fanOut] at h
    rcases List.mem_append.mp h with h1 | h2
    · split at h1
      · exact absurd h1 (by simp)
      · obtain ⟨c, _, heq⟩ := List.mem_map.mp h1
        rw [← heq]
    · exact ih h2

/-- Central counting lemma: a fully successful fan-out over a
duplicate-free user list delivers to connection id `cid` exactly once when
the registry files `cid` under a non-excluded user of the list, else not
at all. -/
theorem count_fanOut {st : ConnectionManager} (hwf : WF st) (m : Msg)
    (excl : Option String) (cid : Nat) :
    ∀ {users : List String}, users.Nodup →
      (fanOut st m excl users).count (cid, m) =
        (match alookup cid st.connections with
         | some c => if c.user_id ∈ users ∧ excludesUser excl c.user_id = false then 1 else 0
         | none => 0) := by
  intro users
  induction users with
  | nil =>
    intro _
    cases hc : alookup cid st.connections with
    | none => rfl
    | some c => simp [fanOut]
  | cons u rest ih =>
    intro hnd
    rw [fanOut, List.count_append]
    have hchunk : (if excludesUser excl u then ([] : List Frame) else userFrames st u m).count
        (cid, m) =
        if excludesUser excl u then 0 else
          (match alookup cid st.connections with
           | some c => if c.user_id = u then 1 else 0
           | none => 0) := by
      by_cases hex : excludesUser excl u
      · rw [if_pos hex, if_pos hex, List.count_nil]
      · rw [if_neg hex, if_neg hex, count_userFrames, count_id_in_user_list hwf]
    rw [hchunk, ih (List.nodup_cons.mp hnd).2]
    have hu_rest : u ∉ rest := (List.nodup_cons.mp hnd).1
    cases hc : alookup cid st.connections with
    | none => simp
    | some c =>
      dsimp only
      by_cases hex : excludesUser excl u
      · rw [if_pos hex]
        by_cases hmm : c.user_id ∈ rest ∧ excludesUser excl c.user_id = false
        · rw [if_pos hmm, if_pos ⟨List.mem_cons_of_mem u hmm.1, hmm.2⟩]
        · rw [if_neg hmm, if_neg]
          intro hand
          rcases List.mem_cons.mp hand.1 with heq | hr
          · rw [heq] at hand
            rw [hand.2] at hex
            exact Bool.false_ne_true hex
          · exact hmm ⟨hr, hand.2⟩
      · rw [if_neg hex]
        by_cases h1 : c.user_id = u
        · subst h1
          rw [if_pos rfl]
          have hnr : ¬(c.user_id ∈ rest ∧ excludesUser excl c.user_id = false) :=
            fun hand => hu_rest hand.1
          rw [if_neg hnr, if_pos ⟨List.mem_cons_self _ _, Bool.eq_false_iff.mpr hex⟩]
        · rw [if_neg h1]
          by_cases hmm : c.user_id ∈ rest ∧ excludesUser excl c.user_id = false
          · rw [if_pos hmm, if_pos ⟨List.mem_cons_of_mem u hmm.1, hmm.2⟩]
          · rw [if_neg hmm, if_neg]
            intro hand
            rcases List.mem_cons.mp hand.1 with heq | hr
            · exact h1 heq
            · exact hmm ⟨hr, hand.2⟩

theorem excludesUser_eq_false_iff {excl : Option String} {w : String}
    (hx : excl ≠ some "") : excludesUser excl w = false ↔ excl ≠ some w := by
  cases excl with
  | none => simp [excludesUser]
  | some x =>
    rw [excludesUser]
    by_cases hxe : x = ""
    · subst hxe
      exact absurd rfl hx
    · rw [if_neg hxe]
      simp only [decide_eq_false_iff_not, ne_eq, Option.some_inj]
      constructor
      · intro h heq; exact h heq.symm
      · intro h heq; exact h heq.symm

theorem subscribersOf_nodup {st : ConnectionManager} (hwf : WF st) (p : String) :
    (subscribersOf st p).Nodup := by
  unfold subscribersOf
  cases hs : alookup p st.project_subscriptions with
  | none => simp
  | some s => exact hwf.sub_nodup (p, s) (alookup_mem hs)

/-!
## Claim C1 — amended theorem

With every transport live (sends are external I/O, failure handling is
claim C2's subject), a well-formed state and a *nonempty* excluded id, the
broadcast leaves the state untouched, returns immediately with no
deliveries when the topic is unknown, and otherwise delivers exactly one
copy of the event to every connection of every non-excluded subscriber and
to nobody else.  The counterexample above shows the nonemptiness proviso
is necessary: an empty excluded id disables the exclusion.
-/

/-- C1 (amended): for a well-formed state, live transports and an excluded
id `excl ≠ some ""`: (i) an unknown topic makes the broadcast an immediate
no-op; (ii) the state is unchanged; (iii) every delivered frame carries the
event; (iv) each connection id receives exactly one copy when the registry
files it under a subscriber of the topic other than the excluded user, and
zero copies otherwise. -/
theorem C1_broadcast_fanout (env : Env) (fuel : Nat) (st : ConnectionManager)
    (p body : String) (excl : Option String)
    (hlive : AllLive env) (hwf : WF st) (hx : excl ≠ some "") :
    (alookup p st.project_subscriptions = none →
      broadcast_to_project env fuel st p (Msg.payload body) excl = (st, [])) ∧
    (broadcast_to_project env fuel st p (Msg.payload body) excl).1 = st ∧
    (∀ f ∈ (broadcast_to_project env fuel st p (Msg.payload body) excl).2,
      f.2 = Msg.payload body) ∧
    ∀ cid : Nat,
      ((broadcast_to_project env fuel st p (Msg.payload body) excl).2).count
          (cid, Msg.payload body) =
        (match alookup cid st.connections with
         | some c => if c.user_id ∈ subscribersOf st p ∧ excl ≠ some c.user_id then 1 else 0
         | none => 0) := by
  have hb := live_broadcast_to_projectCb (disconnect env fuel) hlive st p
    (Msg.payload body) excl
  rw [show broadcast_to_project env fuel st p (Msg.payload body) excl =
    broadcast_to_projectCb env (disconnect env fuel) st p (Msg.payload body) excl from rfl]
  rw [hb]
  refine ⟨?_, rfl, ?_, ?_⟩
  · intro hnone
    rw [show subscribersOf st p = [] from by rw [subscribersOf, hnone]; rfl]
    rfl
  · intro f hf
    exact fanOut_msg hf
  · intro cid
    rw [count_fanOut hwf (Msg.payload body) excl cid (subscribersOf_nodup hwf p)]
    cases hc : alookup cid st.connections with
    | none => rfl
    | some c =>
      dsimp only
      rw [if_congr (and_congr_right (fun _ => excludesUser_eq_false_iff hx)) rfl rfl]

/-- Connection of `"alice"` for the C1 witness topology. -/
def C1wc1 : WebSocketConnection := ⟨"alice", 1, 0, 0⟩

/-- Connection of `"bob"` for the C1 witness topology. -/
def C1wc2 : WebSocketConnection := ⟨"bob", 2, 0, 0⟩

/-- Witness state: alice and bob each with one connection, both subscribed
to `"p1"`. -/
def C1wst : ConnectionManager :=
  ⟨[("alice", [C1wc1]), ("bob", [C1wc2])], [(1, C1wc1), (2, C1wc2)],
   [("p1", ["alice", "bob"])], 3⟩

/-- C1 witness: the amended theorem applied to a concrete two-subscriber
topology with alice excluded — bob's connection receives exactly one copy,
alice's receives none, and the state is unchanged. -/
theorem C1_witness :
    (AllLive envLive ∧ WF C1wst ∧ (some "alice" : Option String) ≠ some "") ∧
    (broadcast_to_project envLive 3 C1wst "p1" (Msg.payload "e") (some "alice")).1 = C1wst ∧
    ((broadcast_to_project envLive 3 C1wst "p1" (Msg.payload "e") (some "alice")).2).count
      (2, Msg.payload "e") = 1 ∧
    ((broadcast_to_project envLive 3 C1wst "p1" (Msg.payload "e") (some "alice")).2).count
      (1, Msg.payload "e") = 0 := by
  have hlive : AllLive envLive := fun _ => ⟨rfl, rfl⟩
  have hwf : WF C1wst :=
    ⟨⟨by decide, by decide, by decide, by decide, by decide⟩,
     by decide, by decide, by decide, by decide, by decide, by decide⟩
  have hx : (some "alice" : Option String) ≠ some "" := by decide
  have h := C1_broadcast_fanout envLive 3 C1wst "p1" "e" (some "alice") hlive hwf hx
  exact ⟨⟨hlive, hwf, hx⟩, h.2.1,
    (h.2.2.2 2).trans (by decide), (h.2.2.2 1).trans (by decide)⟩

/-! ### Removal as filtering

Every state change the disconnect machinery performs is the removal of a
set of connection ids, applied synchronously to the user lists (pruning
entries that empty) and to the global connection map.  `stripIds R`
expresses that removal as filtering; the lemmas below give its algebra. -/

/-- Occurrences of `c.connection_id` in the user lists appear only under
key `c.user_id` (true of every connection taken from a well-formed state,
and the condition under which Python's id-keyed deletes act
synchronously). -/
def ListCompat (st : ConnectionManager) (c : WebSocketConnection) : Prop :=
  ∀ p ∈ st.user_connections, ∀ x ∈ p.2,
    x.connection_id = c.connection_id → p.1 = c.user_id

/-- Remove the connections with ids in `R` from every user list, pruning
entries that become empty. -/
def stripUC (R : List Nat) :
    List (String × List WebSocketConnection) → List (String × List WebSocketConnection)
  | [] => []
  | p :: rest =>
    let l := p.2.filter (fun c => !decide (c.connection_id ∈ R))
    if l.isEmpty then stripUC R rest else (p.1, l) :: stripUC R rest

/-- Remove the connections with ids in `R` from the whole registry. -/
def stripIds (R : List Nat) (st : ConnectionManager) : ConnectionManager :=
  { st with user_connections := stripUC R st.user_connections,
            connections := st.connections.filter (fun q => !decide (q.1 ∈ R)) }

theorem stripUC_eq_of_no_hit {R : List Nat} :
    ∀ {uc : List (String × List WebSocketConnection)},
      (∀ p ∈ uc, p.2 ≠ []) →
      (∀ p ∈ uc, ∀ c ∈ p.2, c.connection_id ∉ R) →
      stripUC R uc = uc := by
  intro uc
  induction uc with
  | nil => intro _ _; rfl
  | cons p rest ih =>
    intro hne hno
    rw [stripUC]
    have hfilter : p.2.filter (fun c => !decide (c.connection_id ∈ R)) = p.2 :=
      List.filter_eq_self.mpr (fun c hc => by
        simp [hno p (List.mem_cons_self p rest) c hc])
    rw [hfilter]
    rw [if_neg (by
      simp only [List.isEmpty_iff]
      exact hne p (List.mem_cons_self p rest))]
    rw [ih (fun q hq => hne q (List.mem_cons_of_mem p hq))
      (fun q hq => hno q (List.mem_cons_of_mem p hq))]

theorem stripIds_nil {st : ConnectionManager}
    (hne : ∀ p ∈ st.user_connections, p.2 ≠ []) : stripIds [] st = st := by
  unfold stripIds
  rw [stripUC_eq_of_no_hit hne (fun p _ c _ => by simp)]
  rw [List.filter_eq_self.mpr (fun q _ => by simp)]

theorem filter_filter_ids {α : Type} (f : α → Nat) (R R' : List Nat) (l : List α) :
    l.filter (fun a => !decide (f a ∈ R ++ R')) =
      (l.filter (fun a => !decide (f a ∈ R))).filter (fun a => !decide (f a ∈ R')) := by
  induction l with
  | nil => rfl
  | cons a rest ih =>
    by_cases h1 : f a ∈ R
    · rw [List.filter_cons_of_neg (by simp [List.mem_append, h1]),
        List.filter_cons_of_neg (by simp [h1]), ih]
    · by_cases h2 : f a ∈ R'
      · rw [List.filter_cons_of_neg (by simp [List.mem_append, h1, h2]),
          List.filter_cons_of_pos (by simp [h1]),
          List.filter_cons_of_neg (by simp [h2]), ih]
      · rw [List.filter_cons_of_pos (by simp [List.mem_append, h1, h2]),
          List.filter_cons_of_pos (by simp [h1]),
          List.filter_cons_of_pos (by simp [h2]), ih]

theorem stripUC_append (R R' : List Nat) :
    ∀ (uc : List (String × List WebSocketConnection)),
      stripUC R' (stripUC R uc) = stripUC (R ++ R') uc := by
  intro uc
  induction uc with
  | nil => rfl
  | cons p rest ih =>
    simp only [stripUC]
    rw [filter_filter_ids WebSocketConnection.connection_id R R' p.2]
    by_cases h1 : (p.2.filter (fun c => !decide (c.connection_id ∈ R))).isEmpty
    · rw [if_pos h1]
      rw [show (p.2.filter (fun c => !decide (c.connection_id ∈ R))).filter
          (fun c => !decide (c.connection_id ∈ R')) = [] from by
        rw [List.isEmpty_iff.mp h1]; rfl]
      rw [if_pos List.isEmpty_nil]
      exact ih
    · rw [if_neg h1]
      simp only [stripUC]
      by_cases h2 : ((p.2.filter (fun c => !decide (c.connection_id ∈ R))).filter
          (fun c => !decide (c.connection_id ∈ R'))).isEmpty
      · rw [if_pos h2, if_pos h2]
        exact ih
      · rw [if_neg h2, if_neg h2, ih]

theorem stripIds_append (R R' : List Nat) (st : ConnectionManager) :
    stripIds R' (stripIds R st) = stripIds (R ++ R') st := by
  unfold stripIds
  rw [stripUC_append]
  rw [← filter_filter_ids Prod.fst R R' st.connections]

theorem aerase_eq_filter {κ β : Type} [DecidableEq κ] {l : List (κ × β)} {k : κ}
    (hnd : (l.map Prod.fst).Nodup) :
    aerase k l = l.filter (fun q => !decide (q.1 = k)) := by
  induction l with
  | nil => rfl
  | cons e rest ih =>
    obtain ⟨k', v'⟩ := e
    rw [aerase]
    by_cases hk : k' = k
    · rw [if_pos hk]
      rw [List.filter_cons_of_neg (by simp [hk])]
      refine (List.filter_eq_self.mpr ?_).symm
      intro q hq
      simp only [Bool.not_eq_true', decide_eq_false_iff_not]
      intro hqk
      have : k' ∈ rest.map Prod.fst := by
        rw [hk, ← hqk]
        exact List.mem_map_of_mem Prod.fst hq
      exact (List.nodup_cons.mp hnd).1 this
    · rw [if_neg hk, List.filter_cons_of_pos (by simp [hk]),
        ih (List.nodup_cons.mp hnd).2]

theorem removeById_eq_filter {l : List WebSocketConnection} {cid : Nat}
    (hnd : (l.map WebSocketConnection.connection_id).Nodup) :
    removeById cid l = l.filter (fun c => !decide (c.connection_id = cid)) := by
  induction l with
  | nil => rfl
  | cons c rest ih =>
    rw [removeById]
    by_cases hc : c.connection_id = cid
    · rw [if_pos hc, List.filter_cons_of_neg (by simp [hc])]
      refine (List.filter_eq_self.mpr ?_).symm
      intro x hx
      simp only [Bool.not_eq_true', decide_eq_false_iff_not]
      intro hxk
      have : c.connection_id ∈ rest.map WebSocketConnection.connection_id := by
        rw [hc, ← hxk]
        exact List.mem_map_of_mem WebSocketConnection.connection_id hx
      exact (List.nodup_cons.mp hnd).1 this
    · rw [if_neg hc, List.filter_cons_of_pos (by simp [hc]),
        ih (List.nodup_cons.mp hnd).2]

/-- The singleton-membership filter predicate is the equality predicate. -/
theorem filter_singleton_pred (cid : Nat) (l : List WebSocketConnection) :
    l.filter (fun c => !decide (c.connection_id ∈ [cid])) =
      l.filter (fun c => !decide (c.connection_id = cid)) :=
  List.filter_congr (fun x _ => by simp)

theorem CInv.list_ids_nodup {st : ConnectionManager} (hci : CInv st)
    {p : String × List WebSocketConnection} (hp : p ∈ st.user_connections) :
    (p.2.map WebSocketConnection.connection_id).Nodup := by
  have hsub : p.2.Sublist (allConns st) :=
    sublist_flatten_of_mem (List.mem_map_of_mem Prod.snd hp)
  exact (hsub.map WebSocketConnection.connection_id).nodup hci.ids_nodup

theorem stripUC_lookup_none {cid : Nat} {u : String}
    {uc : List (String × List WebSocketConnection)}
    (hne : ∀ p ∈ uc, p.2 ≠ [])
    (hcompat : ∀ p ∈ uc, ∀ x ∈ p.2, x.connection_id = cid → p.1 = u)
    (hu : alookup u uc = none) : stripUC [cid] uc = uc := by
  apply stripUC_eq_of_no_hit hne
  intro p hp x hx
  rw [List.mem_singleton]
  intro heq
  have := hcompat p hp x hx heq
  exact (alookup_eq_none_iff.mp hu) (List.mem_map.mpr ⟨p, hp, this⟩)

theorem stripUC_lookup_some {cid : Nat} {u : String} {lst : List WebSocketConnection} :
    ∀ {uc : List (String × List WebSocketConnection)},
      (uc.map Prod.fst).Nodup →
      (∀ p ∈ uc, p.2 ≠ []) →
      (∀ p ∈ uc, ∀ x ∈ p.2, x.connection_id = cid → p.1 = u) →
      alookup u uc = some lst →
      stripUC [cid] uc =
        (if (lst.filter (fun c => !decide (c.connection_id = cid))).isEmpty
         then aerase u uc
         else aset u (lst.filter (fun c => !decide (c.connection_id = cid))) uc) := by
  intro uc
  induction uc with
  | nil =>
    intro _ _ _ hu
    exact absurd hu (by simp [alookup])
  | cons p rest ih =>
    intro hkeys hne hcompat hu
    obtain ⟨k, l⟩ := p
    rw [alookup] at hu
    by_cases hpk : k = u
    · rw [if_pos hpk] at hu
      injection hu with hl
      have hknotin : u ∉ rest.map Prod.fst := by
        rw [← hpk]
        exact (List.nodup_cons.mp hkeys).1
      have hrest : stripUC [cid] rest = rest := by
        apply stripUC_eq_of_no_hit (fun q hq => hne q (List.mem_cons_of_mem _ hq))
        intro q hq x hx
        rw [List.mem_singleton]
        intro heq
        have hqk := hcompat q (List.mem_cons_of_mem _ hq) x hx heq
        exact absurd (hqk ▸ List.mem_map_of_mem Prod.fst hq) hknotin
      simp only [stripUC]
      rw [filter_singleton_pred, hl, hrest]
      by_cases hemp : (lst.filter (fun c => !decide (c.connection_id = cid))).isEmpty
      · rw [if_pos hemp, if_pos hemp, aerase, if_pos hpk]
      · rw [if_neg hemp, if_neg hemp, aset, if_pos hpk, hpk]
    · rw [if_neg hpk] at hu
      have hheadno : l.filter (fun c => !decide (c.connection_id ∈ [cid])) = l := by
        apply List.filter_eq_self.mpr
        intro x hx
        simp only [Bool.not_eq_true', decide_eq_false_iff_not, List.mem_singleton]
        intro heq
        exact hpk (hcompat (k, l) (List.mem_cons_self _ _) x hx heq)
      simp only [stripUC]
      rw [hheadno]
      rw [if_neg (by
        simp only [List.isEmpty_iff]
        exact hne (k, l) (List.mem_cons_self _ _))]
      rw [ih (List.nodup_cons.mp hkeys).2
        (fun q hq => hne q (List.mem_cons_of_mem _ hq))
        (fun q hq => hcompat q (List.mem_cons_of_mem _ hq)) hu]
      by_cases hemp : (lst.filter (fun c => !decide (c.connection_id = cid))).isEmpty
      · rw [if_pos hemp, if_pos hemp, aerase, if_neg hpk]
      · rw [if_neg hemp, if_neg hemp, aset, if_neg hpk]

/-- `disconnect`'s registry mutation is exactly the synchronized removal of
the one connection id. -/
theorem removeConn_eq_strip {st : ConnectionManager} {c : WebSocketConnection}
    (hci : CInv st) (hlc : ListCompat st c) :
    removeConn st c = stripIds [c.connection_id] st := by
  have hconns : aerase c.connection_id st.connections =
      st.connections.filter (fun q => !decide (q.1 ∈ [c.connection_id])) := by
    rw [aerase_eq_filter hci.conn_keys]
    exact (List.filter_congr (fun q _ => by simp)).symm
  unfold removeConn stripIds
  cases hu : alookup c.user_id st.user_connections with
  | none =>
    rw [stripUC_lookup_none hci.uc_nonempty hlc hu, hconns]
  | some lst =>
    dsimp only
    have hlstnd : (lst.map WebSocketConnection.connection_id).Nodup :=
      hci.list_ids_nodup (alookup_mem hu)
    rw [removeById_eq_filter hlstnd]
    rw [stripUC_lookup_some hci.uc_keys hci.uc_nonempty hlc hu, hconns]
    by_cases hemp : (lst.filter (fun x => !decide (x.connection_id = c.connection_id))).isEmpty
    · rw [if_pos hemp, if_pos hemp]
    · rw [if_neg hemp, if_neg hemp]

/-! ### The invariants survive stripping -/

theorem stripUC_keys_sublist (R : List Nat) :
    ∀ (uc : List (String × List WebSocketConnection)),
      ((stripUC R uc).map Prod.fst).Sublist (uc.map Prod.fst) := by
  intro uc
  induction uc with
  | nil => exact List.Sublist.refl _
  | cons p rest ih =>
    simp only [stripUC]
    split
    · exact ih.trans (List.sublist_cons_self _ _)
    · exact List.cons_sublist_cons.mpr ih

theorem mem_stripUC {R : List Nat} {p' : String × List WebSocketConnection} :
    ∀ {uc : List (String × List WebSocketConnection)}, p' ∈ stripUC R uc →
      ∃ p ∈ uc, p'.1 = p.1 ∧
        p'.2 = p.2.filter (fun c => !decide (c.connection_id ∈ R)) ∧ p'.2 ≠ [] := by
  intro uc
  induction uc with
  | nil => intro h; exact absurd h (by simp [stripUC])
  | cons p rest ih =>
    intro h
    simp only [stripUC] at h
    split at h
    · obtain ⟨q, hq, hrest⟩ := ih h
      exact ⟨q, List.mem_cons_of_mem p hq, hrest⟩
    · rename_i hne
      rcases List.mem_cons.mp h with heq | hmem
      · refine ⟨p, List.mem_cons_self p rest, ?_, ?_, ?_⟩
        · rw [heq]
        · rw [heq]
        · rw [heq]
          simpa [List.isEmpty_iff] using hne
      · obtain ⟨q, hq, hrest⟩ := ih hmem
        exact ⟨q, List.mem_cons_of_mem p hq, hrest⟩

theorem allConns_stripIds (R : List Nat) (st : ConnectionManager) :
    allConns (stripIds R st) =
      (allConns st).filter (fun c => !decide (c.connection_id ∈ R)) := by
  show ((stripUC R st.user_connections).map Prod.snd).flatten = _
  unfold allConns
  generalize st.user_connections = uc
  induction uc with
  | nil => rfl
  | cons p rest ih =>
    simp only [stripUC]
    split
    · rename_i hemp
      rw [List.map_cons, List.flatten_cons, List.filter_append, ← ih]
      rw [show p.2.filter (fun c => !decide (c.connection_id ∈ R)) = [] from
        List.isEmpty_iff.mp hemp]
      rfl
    · rw [List.map_cons, List.flatten_cons, List.map_cons, List.flatten_cons,
        List.filter_append, ← ih]

theorem map_snd_filter_key {R : List Nat} {l : List (Nat × WebSocketConnection)}
    (hids : ∀ q ∈ l, q.2.connection_id = q.1) :
    (l.filter (fun q => !decide (q.1 ∈ R))).map Prod.snd =
      (l.map Prod.snd).filter (fun c => !decide (c.connection_id ∈ R)) := by
  induction l with
  | nil => rfl
  | cons q rest ih =>
    have hid := hids q (List.mem_cons_self q rest)
    have ihr := ih (fun x hx => hids x (List.mem_cons_of_mem q hx))
    by_cases hq : q.1 ∈ R
    · rw [List.filter_cons_of_neg (by simp [hq]), List.map_cons,
        List.filter_cons_of_neg (by simp [hid, hq]), ihr]
    · rw [List.filter_cons_of_pos (by simp [hq]), List.map_cons, List.map_cons,
        List.filter_cons_of_pos (by simp [hid, hq]), ihr]

theorem CInv_stripIds {st : ConnectionManager} (hci : CInv st) (R : List Nat) :
    CInv (stripIds R st) := by
  refine ⟨?_, ?_, ?_, ?_, ?_⟩
  · exact (stripUC_keys_sublist R st.user_connections).nodup hci.uc_keys
  · exact ((List.filter_sublist _).map Prod.fst).nodup hci.conn_keys
  · intro p hp
    exact (mem_stripUC hp).choose_spec.2.2.2
  · intro p hp c hc
    obtain ⟨q, hq, h1, h2, _⟩ := mem_stripUC hp
    rw [h2] at hc
    rw [h1]
    exact hci.uc_owner q hq c (List.mem_of_mem_filter hc)
  · rw [allConns_stripIds]
    exact ((List.filter_sublist _).map WebSocketConnection.connection_id).nodup
      hci.ids_nodup

theorem WF_stripIds {st : ConnectionManager} (hwf : WF st) (R : List Nat) :
    WF (stripIds R st) := by
  refine ⟨CInv_stripIds hwf.cinv R, hwf.sub_keys, hwf.sub_nonempty, hwf.sub_nodup,
    ?_, ?_, ?_⟩
  · intro q hq
    exact hwf.conn_ids q (List.mem_of_mem_filter hq)
  · rw [allConns_stripIds]
    dsimp only [stripIds]
    rw [map_snd_filter_key hwf.conn_ids]
    exact hwf.conn_perm.filter _
  · intro q hq
    dsimp only [stripIds] at hq ⊢
    exact hwf.ids_lt q (List.mem_of_mem_filter hq)

theorem ListCompat_stripIds {st : ConnectionManager} {c : WebSocketConnection}
    (hlc : ListCompat st c) (R : List Nat) : ListCompat (stripIds R st) c := by
  intro p hp x hx hid
  obtain ⟨q, hq, h1, h2, _⟩ := mem_stripUC hp
  rw [h2] at hx
  rw [h1]
  exact hlc q hq x (List.mem_of_mem_filter hx) hid

/-- Every connection stored in a well-formed state's global map is
list-compatible: its id occurs in the user lists only under its owner. -/
theorem WF.listCompat_of_value {st : ConnectionManager} (hwf : WF st)
    {q : Nat × WebSocketConnection} (hq : q ∈ st.connections) :
    ListCompat st q.2 := by
  intro p hp x hx hid
  have hvals_nodup : ((st.connections.map Prod.snd).map
      WebSocketConnection.connection_id).Nodup := by
    have : (st.connections.map Prod.snd).map WebSocketConnection.connection_id =
        st.connections.map Prod.fst := by
      rw [List.map_map]
      exact List.map_congr_left (fun x hx => hwf.conn_ids x hx)
    rw [this]
    exact hwf.cinv.conn_keys
  have hxv : x ∈ st.connections.map Prod.snd :=
    hwf.conn_perm.mem_iff.mp (mem_allConns_of_mem hp hx)
  have hqv : q.2 ∈ st.connections.map Prod.snd := List.mem_map_of_mem Prod.snd hq
  have hxq : x = q.2 :=
    List.inj_on_of_nodup_map hvals_nodup hxv hqv hid
  have := hwf.cinv.uc_owner p hp x hx
  rw [← this, hxq]

/-- The connection ids of the global map's values are duplicate-free. -/
theorem WF.values_ids_nodup {st : ConnectionManager} (hwf : WF st) :
    ((st.connections.map Prod.snd).map WebSocketConnection.connection_id).Nodup := by
  have : (st.connections.map Prod.snd).map WebSocketConnection.connection_id =
      st.connections.map Prod.fst := by
    rw [List.map_map]
    exact List.map_congr_left (fun x hx => hwf.conn_ids x hx)
  rw [this]
  exact hwf.cinv.conn_keys

/-!
## Claim C6 — the stale sweep

Under live transports (the offline-status broadcasts the sweep triggers
deliver frames but cannot change state) the sweep is exactly the
synchronized removal of the connections whose `last_ping` precedes the
cutoff, and it returns their number.
-/

theorem cleanupLoop_strip {env : Env} (hlive : AllLive env) (fuel : Nat) :
    ∀ (cs : List WebSocketConnection) (st : ConnectionManager),
      CInv st → (∀ c ∈ cs, ListCompat st c) →
      (cleanupLoop env fuel cs st).1 =
        stripIds (cs.map WebSocketConnection.connection_id) st := by
  intro cs
  induction cs with
  | nil => intro st hci _; exact (stripIds_nil hci.uc_nonempty).symm
  | cons c rest ih =>
    intro st hci hlc
    rw [cleanupLoop]
    dsimp only
    rw [live_disconnect_state env hlive fuel st c,
      removeConn_eq_strip hci (hlc c (List.mem_cons_self c rest))]
    rw [ih (stripIds [c.connection_id] st) (CInv_stripIds hci [c.connection_id])
      (fun x hx => ListCompat_stripIds
        (hlc x (List.mem_cons_of_mem c hx)) [c.connection_id])]
    rw [stripIds_append]
    rfl

theorem stripUC_congr_pred {R : List Nat} {P : WebSocketConnection → Bool} :
    ∀ {uc : List (String × List WebSocketConnection)},
      (∀ p ∈ uc, ∀ c ∈ p.2, decide (c.connection_id ∈ R) = P c) →
      stripUC R uc =
        (uc.map (fun p => (p.1, p.2.filter (fun c => !P c)))).filter
          (fun p => !p.2.isEmpty) := by
  intro uc
  induction uc with
  | nil => intro _; rfl
  | cons p rest ih =>
    intro h
    have hfilter : p.2.filter (fun c => !decide (c.connection_id ∈ R)) =
        p.2.filter (fun c => !P c) :=
      List.filter_congr (fun c hc => by
        rw [h p (List.mem_cons_self p rest) c hc])
    simp only [stripUC, List.map_cons]
    rw [hfilter]
    by_cases hemp : (p.2.filter (fun c => !P c)).isEmpty
    · rw [if_pos hemp, List.filter_cons_of_neg (by simp [hemp]),
        ih (fun q hq => h q (List.mem_cons_of_mem p hq))]
    · rw [if_neg hemp, List.filter_cons_of_pos (by simp [hemp]),
        ih (fun q hq => h q (List.mem_cons_of_mem p hq))]

/-- C6: for a well-formed state and live transports, the stale sweep
removes exactly the connections whose last heartbeat precedes the cutoff
`now - max_ping_age_minutes * 60` — synchronously from the global map and
the user lists (pruning users left with no connection) — leaves every
other connection and the subscription index untouched, and returns the
number of evicted connections; with no stale connection it returns 0 and
the state is unchanged. -/
theorem C6_cleanup_evicts_exactly_stale (env : Env) (fuel : Nat)
    (st : ConnectionManager) (d : Int) (hlive : AllLive env) (hwf : WF st) :
    ((cleanup_stale_connections env fuel st d).2 =
      ((st.connections.map Prod.snd).filter
        (fun c => decide (c.last_ping < env.now - d * 60))).length) ∧
    ((cleanup_stale_connections env fuel st d).1.1.connections =
      st.connections.filter (fun q => !decide (q.2.last_ping < env.now - d * 60))) ∧
    ((cleanup_stale_connections env fuel st d).1.1.user_connections =
      (st.user_connections.map (fun p =>
        (p.1, p.2.filter (fun c => !decide (c.last_ping < env.now - d * 60))))).filter
        (fun p => !p.2.isEmpty)) ∧
    ((cleanup_stale_connections env fuel st d).1.1.project_subscriptions =
      st.project_subscriptions) ∧
    ((∀ q ∈ st.connections, ¬(q.2.last_ping < env.now - d * 60)) →
      (cleanup_stale_connections env fuel st d).1.1 = st ∧
      (cleanup_stale_connections env fuel st d).2 = 0) := by
  have hstale_compat : ∀ c ∈ (st.connections.map Prod.snd).filter
      (fun c => decide (c.last_ping < env.now - d * 60)), ListCompat st c := by
    intro c hc
    obtain ⟨q, hq, hq2⟩ := List.mem_map.mp (List.mem_of_mem_filter hc)
    rw [← hq2]
    exact hwf.listCompat_of_value hq
  have hstate : (cleanup_stale_connections env fuel st d).1.1 =
      stripIds (((st.connections.map Prod.snd).filter
        (fun c => decide (c.last_ping < env.now - d * 60))).map
        WebSocketConnection.connection_id) st := by
    unfold cleanup_stale_connections
    dsimp only
    exact cleanupLoop_strip hlive fuel _ st hwf.cinv hstale_compat
  have hcore : ∀ c' ∈ st.connections.map Prod.snd,
      decide (c'.connection_id ∈ ((st.connections.map Prod.snd).filter
        (fun c => decide (c.last_ping < env.now - d * 60))).map
        WebSocketConnection.connection_id) =
      decide (c'.last_ping < env.now - d * 60) := by
    intro c' hc'
    by_cases hp : c'.last_ping < env.now - d * 60
    · rw [decide_eq_true hp]
      rw [decide_eq_true]
      exact List.mem_map_of_mem WebSocketConnection.connection_id
        (List.mem_filter.mpr ⟨hc', decide_eq_true hp⟩)
    · rw [decide_eq_false hp]
      rw [decide_eq_false]
      intro hmem
      obtain ⟨s, hs, hsid⟩ := List.mem_map.mp hmem
      have hsv : s ∈ st.connections.map Prod.snd := List.mem_of_mem_filter hs
      have : s = c' := List.inj_on_of_nodup_map hwf.values_ids_nodup hsv hc' hsid
      rw [this] at hs
      have := (List.mem_filter.mp hs).2
      exact hp (of_decide_eq_true this)
  refine ⟨rfl, ?_, ?_, ?_, ?_⟩
  · rw [hstate]
    dsimp only [stripIds]
    apply List.filter_congr
    intro q hq
    have h1 := hcore q.2 (List.mem_map_of_mem Prod.snd hq)
    rw [hwf.conn_ids q hq] at h1
    rw [h1]
  · rw [hstate]
    dsimp only [stripIds]
    apply stripUC_congr_pred
    intro p hp c hc
    exact hcore c (hwf.conn_perm.mem_iff.mp (mem_allConns_of_mem hp hc))
  · rw [hstate]
    rfl
  · intro hnone
    have hempty : (st.connections.map Prod.snd).filter
        (fun c => decide (c.last_ping < env.now - d * 60)) = [] := by
      apply List.filter_eq_nil_iff.mpr
      intro c hc
      obtain ⟨q, hq, hq2⟩ := List.mem_map.mp hc
      simp only [decide_eq_true_eq]
      rw [← hq2]
      exact hnone q hq
    constructor
    · rw [hstate, hempty]
      exact stripIds_nil hwf.cinv.uc_nonempty
    · show ((st.connections.map Prod.snd).filter
        (fun c => decide (c.last_ping < env.now - d * 60))).length = 0
      rw [hempty]
      rfl

/-- Transport environment for the C6 witness, clock at 400. -/
def C6env : Env := ⟨fun _ => true, fun _ => true, 400⟩

/-- Stale connection of user `"a"` (heartbeat at 0). -/
def C6c1 : WebSocketConnection := ⟨"a", 1, 0, 0⟩

/-- Fresh connection of user `"b"` (heartbeat at 100 = the cutoff, not
strictly below it, hence kept). -/
def C6c2 : WebSocketConnection := ⟨"b", 2, 0, 100⟩

/-- Witness state for C6. -/
def C6st : ConnectionManager :=
  ⟨[("a", [C6c1]), ("b", [C6c2])], [(1, C6c1), (2, C6c2)], [("p1", ["a"])], 3⟩

/-- C6 witness: sweeping with a 5-minute threshold at clock 400 (cutoff
100) evicts exactly the stale connection 1, keeps the boundary connection
2 untouched, leaves the subscriptions alone and returns 1. -/
theorem C6_witness :
    (AllLive C6env ∧ WF C6st) ∧
    (cleanup_stale_connections C6env 3 C6st 5).2 = 1 ∧
    (cleanup_stale_connections C6env 3 C6st 5).1.1.connections = [(2, C6c2)] ∧
    (cleanup_stale_connections C6env 3 C6st 5).1.1.user_connections = [("b", [C6c2])] ∧
    (cleanup_stale_connections C6env 3 C6st 5).1.1.project_subscriptions =
      [("p1", ["a"])] := by
  have hlive : AllLive C6env := fun _ => ⟨rfl, rfl⟩
  have hwf : WF C6st :=
    ⟨⟨by decide, by decide, by decide, by decide, by decide⟩,
     by decide, by decide, by decide, by decide, by decide, by decide⟩
  have h := C6_cleanup_evicts_exactly_stale C6env 3 C6st 5 hlive hwf
  exact ⟨⟨hlive, hwf⟩, h.1.trans (by decide), h.2.1.trans (by decide),
    h.2.2.1.trans (by decide), h.2.2.2.1.trans (by decide)⟩

/-! ### More association-list and set facts -/

theorem aerase_not_mem {κ β : Type} [DecidableEq κ] {l : List (κ × β)} {k : κ}
    (h : k ∉ l.map Prod.fst) : aerase k l = l := by
  induction l with
  | nil => rfl
  | cons e rest ih =>
    obtain ⟨k', v'⟩ := e
    have hk : ¬(k' = k) := by
      intro heq
      apply h
      rw [← heq]
      exact List.mem_map_of_mem Prod.fst (List.mem_cons_self _ rest)
    rw [aerase, if_neg hk, ih (fun hm => h (List.mem_cons_of_mem _ hm))]

theorem aset_lookup_self {κ β : Type} [DecidableEq κ] {l : List (κ × β)} {k : κ} {v : β}
    (h : alookup k l = some v) : aset k v l = l := by
  induction l with
  | nil => exact absurd h (by simp [alookup])
  | cons e rest ih =>
    obtain ⟨k', v'⟩ := e
    rw [alookup] at h
    rw [aset]
    split
    · rename_i hk
      rw [if_pos hk] at h
      injection h with hv
      rw [hk, hv]
    · rename_i hk
      rw [if_neg hk] at h
      rw [ih h]

theorem alookup_aset_self {κ β : Type} [DecidableEq κ] (l : List (κ × β)) (k : κ) (v : β) :
    alookup k (aset k v l) = some v := by
  induction l with
  | nil => simp [aset, alookup]
  | cons e rest ih =>
    obtain ⟨k', v'⟩ := e
    rw [aset]
    split
    · rw [alookup]
      rename_i hk
      rw [if_pos rfl]
    · rw [alookup]
      rename_i hk
      rw [if_neg hk]
      exact ih

theorem aset_aset {κ β : Type} [DecidableEq κ] (l : List (κ × β)) (k : κ) (v : β) :
    aset k v (aset k v l) = aset k v l :=
  aset_lookup_self (alookup_aset_self l k v)

theorem mem_aset_or {κ β : Type} [DecidableEq κ] {l : List (κ × β)} {k : κ} {v : β}
    {e : κ × β} (h : e ∈ aset k v l) : e = (k, v) ∨ e ∈ l := by
  induction l with
  | nil =>
    rw [aset] at h
    rcases List.mem_cons.mp h with heq | hmem
    · exact Or.inl heq
    · exact absurd hmem (by simp)
  | cons e' rest ih =>
    obtain ⟨k', v'⟩ := e'
    rw [aset] at h
    split at h
    · rcases List.mem_cons.mp h with heq | hmem
      · exact Or.inl heq
      · exact Or.inr (List.mem_cons_of_mem _ hmem)
    · rcases List.mem_cons.mp h with heq | hmem
      · exact Or.inr (by rw [heq]; exact List.mem_cons_self _ _)
      · rcases ih hmem with h1 | h2
        · exact Or.inl h1
        · exact Or.inr (List.mem_cons_of_mem _ h2)

theorem mem_keys_aset {κ β : Type} [DecidableEq κ] {l : List (κ × β)} {k : κ} {v : β}
    {x : κ} (h : x ∈ (aset k v l).map Prod.fst) : x = k ∨ x ∈ l.map Prod.fst := by
  obtain ⟨e, he, hfst⟩ := List.mem_map.mp h
  rcases mem_aset_or he with heq | hmem
  · rw [heq] at hfst
    exact Or.inl hfst.symm
  · exact Or.inr (hfst ▸ List.mem_map_of_mem Prod.fst hmem)

theorem aset_keys_nodup {κ β : Type} [DecidableEq κ] {l : List (κ × β)} {k : κ} {v : β}
    (h : (l.map Prod.fst).Nodup) : ((aset k v l).map Prod.fst).Nodup := by
  induction l with
  | nil => simp [aset]
  | cons e rest ih =>
    obtain ⟨k', v'⟩ := e
    rw [aset]
    split
    · rename_i hk
      simp only [List.map_cons] at h ⊢
      rw [← hk]
      exact h
    · rename_i hk
      simp only [List.map_cons, List.nodup_cons] at h ⊢
      refine ⟨?_, ih h.2⟩
      intro hmem
      rcases mem_keys_aset hmem with heq | hold
      · exact hk heq
      · exact h.1 hold

theorem aset_not_mem_append {κ β : Type} [DecidableEq κ] {l : List (κ × β)} {k : κ} {v : β}
    (h : k ∉ l.map Prod.fst) : aset k v l = l ++ [(k, v)] := by
  induction l with
  | nil => rfl
  | cons e rest ih =>
    obtain ⟨k', v'⟩ := e
    have hk : ¬(k' = k) := by
      intro heq
      apply h
      rw [← heq]
      exact List.mem_map_of_mem Prod.fst (List.mem_cons_self _ rest)
    rw [aset, if_neg hk, ih (fun hm => h (List.mem_cons_of_mem _ hm))]
    rfl

theorem aerase_sublist {κ β : Type} [DecidableEq κ] (k : κ) (l : List (κ × β)) :
    (aerase k l).Sublist l := by
  induction l with
  | nil => exact List.Sublist.refl _
  | cons e rest ih =>
    rw [aerase]
    split
    · exact List.sublist_cons_self e rest
    · exact List.cons_sublist_cons.mpr ih

theorem sdiscard_sublist (u : String) (l : List String) : (sdiscard u l).Sublist l := by
  induction l with
  | nil => exact List.Sublist.refl _
  | cons x rest ih =>
    rw [sdiscard]
    split
    · exact List.sublist_cons_self x rest
    · exact List.cons_sublist_cons.mpr ih

theorem sdiscard_not_mem {u : String} {l : List String} (h : u ∉ l) :
    sdiscard u l = l := by
  induction l with
  | nil => rfl
  | cons x rest ih =>
    have hx : ¬(x = u) := by
      intro heq
      apply h
      rw [heq]
      exact List.mem_cons_self u rest
    rw [sdiscard, if_neg hx, ih (fun hm => h (List.mem_cons_of_mem _ hm))]

theorem removeById_of_not_mem {cid : Nat} {l : List WebSocketConnection}
    (h : ∀ x ∈ l, x.connection_id ≠ cid) : removeById cid l = l := by
  induction l with
  | nil => rfl
  | cons c rest ih =>
    rw [removeById]
    rw [if_neg (h c (List.mem_cons_self c rest))]
    rw [ih (fun x hx => h x (List.mem_cons_of_mem _ hx))]

/-- A connection taken from a user list of a `CInv` state is
list-compatible. -/
theorem CInv.listCompat_of_mem {st : ConnectionManager} (hci : CInv st)
    {p : String × List WebSocketConnection} {c : WebSocketConnection}
    (hp : p ∈ st.user_connections) (hc : c ∈ p.2) : ListCompat st c := by
  intro q hq x hx hid
  have hxa : x ∈ allConns st := mem_allConns_of_mem hq hx
  have hca : c ∈ allConns st := mem_allConns_of_mem hp hc
  have hxc : x = c := List.inj_on_of_nodup_map hci.ids_nodup hxa hca hid
  have := hci.uc_owner q hq x hx
  rw [← this, hxc]

/-! ### Arbitrary transports: every send-path state change is a strip

With no assumption on the environment, the only thing the broadcast/
disconnect machinery ever does to the state is remove a set of connection
ids (cascading nested disconnects included).  We prove it for every
callback-parameterised function, assuming it of the callback, and tie the
knot over the fuel. -/

/-- The callback only strips ids from well-formed states when handed a
list-compatible connection. -/
def StripsState (cb : Cb) : Prop :=
  ∀ st c, CInv st → ListCompat st c → ∃ R : List Nat, (cb st c).1 = stripIds R st

theorem structEq (a b : ConnectionManager)
    (h1 : a.user_connections = b.user_connections)
    (h2 : a.connections = b.connections)
    (h3 : a.project_subscriptions = b.project_subscriptions)
    (h4 : a.nextId = b.nextId) : a = b := by
  cases a
  cases b
  simp_all

theorem flatten_stripUC (R : List Nat) :
    ∀ (uc : List (String × List WebSocketConnection)),
      ((stripUC R uc).map Prod.snd).flatten =
        ((uc.map Prod.snd).flatten).filter (fun c => !decide (c.connection_id ∈ R)) := by
  intro uc
  induction uc with
  | nil => rfl
  | cons p rest ih =>
    simp only [stripUC]
    split
    · rename_i hemp
      rw [List.map_cons, List.flatten_cons, List.filter_append, ← ih]
      rw [show p.2.filter (fun c => !decide (c.connection_id ∈ R)) = [] from
        List.isEmpty_iff.mp hemp]
      rfl
    · rw [List.map_cons, List.flatten_cons, List.map_cons, List.flatten_cons,
        List.filter_append, ← ih]

/-- `CInv` survives stripping only the user-list side. -/
theorem CInv_replaceUC {st : ConnectionManager} (hci : CInv st) (R : List Nat) :
    CInv { st with user_connections := stripUC R st.user_connections } := by
  refine ⟨(stripUC_keys_sublist R st.user_connections).nodup hci.uc_keys,
    hci.conn_keys, ?_, ?_, ?_⟩
  · intro p hp
    exact (mem_stripUC hp).choose_spec.2.2.2
  · intro p hp c hc
    obtain ⟨q, hq, h1, h2, _⟩ := mem_stripUC hp
    rw [h2] at hc
    rw [h1]
    exact hci.uc_owner q hq c (List.mem_of_mem_filter hc)
  · show (((stripUC R st.user_connections).map Prod.snd).flatten.map
      WebSocketConnection.connection_id).Nodup
    rw [flatten_stripUC]
    exact ((List.filter_sublist _).map WebSocketConnection.connection_id).nodup
      hci.ids_nodup

theorem strips_send_to_connectionCb (env : Env) {cb : Cb} (hcb : StripsState cb)
    {st : ConnectionManager} {c : WebSocketConnection} (m : Msg)
    (hci : CInv st) (hlc : ListCompat st c) :
    ∃ R, ((send_to_connectionCb env cb st c m).1).1 = stripIds R st := by
  unfold send_to_connectionCb
  split
  · split
    · exact ⟨[], (stripIds_nil hci.uc_nonempty).symm⟩
    · exact hcb st c hci hlc
  · exact hcb st c hci hlc

theorem strips_sendLoopCb {env : Env} {cb : Cb} (hcb : StripsState cb)
    (u : String) (m : Msg) :
    ∀ (steps i : Nat) (st : ConnectionManager), CInv st →
      ∃ R, (sendLoopCb env cb u m i steps st).1 = stripIds R st ∧
        ∀ x ∈ (sendLoopCb env cb u m i steps st).2.2,
          ListCompat (sendLoopCb env cb u m i steps st).1 x := by
  intro steps
  induction steps with
  | zero =>
    intro i st hci
    exact ⟨[], (stripIds_nil hci.uc_nonempty).symm, by intro x hx; exact absurd hx (by simp [sendLoopCb])⟩
  | succ n ih =>
    intro i st hci
    rw [sendLoopCb]
    dsimp only
    cases hlk : alookup u st.user_connections with
    | none =>
      rw [dif_neg (by simp)]
      exact ⟨[], (stripIds_nil hci.uc_nonempty).symm, by intro x hx; exact absurd hx (by simp)⟩
    | some l =>
      dsimp only [Option.getD_some]
      split
      · rename_i hlt
        have hc : l[i] ∈ l := List.getElem_mem hlt
        have hlc_c : ListCompat st l[i] :=
          hci.listCompat_of_mem (alookup_mem hlk) hc
        obtain ⟨R1, h1⟩ := strips_send_to_connectionCb env hcb m hci hlc_c
        rw [h1]
        obtain ⟨R2, h2, hdead2⟩ := ih (i + 1) (stripIds R1 st) (CInv_stripIds hci R1)
        rw [h2, stripIds_append] at hdead2 ⊢
        refine ⟨R1 ++ R2, rfl, ?_⟩
        intro x hx
        split at hx
        · exact hdead2 x hx
        · rcases List.mem_cons.mp hx with heq | hmem
          · rw [heq]
            exact ListCompat_stripIds hlc_c (R1 ++ R2)
          · exact hdead2 x hmem
      · exact ⟨[], (stripIds_nil hci.uc_nonempty).symm, by intro x hx; exact absurd hx (by simp)⟩

theorem strips_deadLoopCb {cb : Cb} (hcb : StripsState cb) :
    ∀ (cs : List WebSocketConnection) (st : ConnectionManager), CInv st →
      (∀ c ∈ cs, ListCompat st c) →
      ∃ R, (deadLoopCb cb cs st).1 = stripIds R st := by
  intro cs
  induction cs with
  | nil => intro st hci _; exact ⟨[], (stripIds_nil hci.uc_nonempty).symm⟩
  | cons c rest ih =>
    intro st hci hl
    rw [deadLoopCb]
    dsimp only
    obtain ⟨R1, h1⟩ := hcb st c hci (hl c (List.mem_cons_self c rest))
    rw [h1]
    obtain ⟨R2, h2⟩ := ih (stripIds R1 st) (CInv_stripIds hci R1)
      (fun x hx => ListCompat_stripIds (hl x (List.mem_cons_of_mem c hx)) R1)
    exact ⟨R1 ++ R2, by rw [h2, stripIds_append]⟩

theorem strips_send_to_userCb {env : Env} {cb : Cb} (hcb : StripsState cb)
    (st : ConnectionManager) (u : String) (m : Msg) (hci : CInv st) :
    ∃ R, (send_to_userCb env cb st u m).1 = stripIds R st := by
  unfold send_to_userCb
  cases hlk : alookup u st.user_connections with
  | none => exact ⟨[], (stripIds_nil hci.uc_nonempty).symm⟩
  | some lst =>
    dsimp only
    obtain ⟨R1, h1, hdead⟩ := strips_sendLoopCb hcb u m lst.length 0 st hci
    rw [h1] at hdead ⊢
    obtain ⟨R2, h2⟩ := strips_deadLoopCb hcb _ (stripIds R1 st)
      (CInv_stripIds hci R1) hdead
    exact ⟨R1 ++ R2, by rw [h2, stripIds_append]⟩

theorem strips_broadcastLoopCb {env : Env} {cb : Cb} (hcb : StripsState cb)
    (m : Msg) (excl : Option String) :
    ∀ (users : List String) (st : ConnectionManager), CInv st →
      ∃ R, (broadcastLoopCb env cb m excl users st).1 = stripIds R st := by
  intro users
  induction users with
  | nil => intro st hci; exact ⟨[], (stripIds_nil hci.uc_nonempty).symm⟩
  | cons u rest ih =>
    intro st hci
    rw [broadcastLoopCb]
    split
    · exact ih st hci
    · dsimp only
      obtain ⟨R1, h1⟩ := strips_send_to_userCb hcb st u m hci
      rw [h1]
      obtain ⟨R2, h2⟩ := ih (stripIds R1 st) (CInv_stripIds hci R1)
      exact ⟨R1 ++ R2, by rw [h2, stripIds_append]⟩

theorem strips_broadcast_to_projectCb {env : Env} {cb : Cb} (hcb : StripsState cb)
    (st : ConnectionManager) (p : String) (m : Msg) (excl : Option String)
    (hci : CInv st) :
    ∃ R, (broadcast_to_projectCb env cb st p m excl).1 = stripIds R st := by
  unfold broadcast_to_projectCb
  split
  · exact ⟨[], (stripIds_nil hci.uc_nonempty).symm⟩
  · exact strips_broadcastLoopCb hcb m excl _ st hci

theorem strips_busLoopCb {env : Env} {cb : Cb} (hcb : StripsState cb)
    (u : String) (m : Msg) :
    ∀ (entries : List (String × List String)) (st : ConnectionManager), CInv st →
      ∃ R, (busLoopCb env cb u m entries st).1 = stripIds R st := by
  intro entries
  induction entries with
  | nil => intro st hci; exact ⟨[], (stripIds_nil hci.uc_nonempty).symm⟩
  | cons e rest ih =>
    intro st hci
    rw [busLoopCb]
    split
    · dsimp only
      obtain ⟨R1, h1⟩ := strips_broadcast_to_projectCb hcb st e.1 m (some u) hci
      rw [h1]
      obtain ⟨R2, h2⟩ := ih (stripIds R1 st) (CInv_stripIds hci R1)
      exact ⟨R1 ++ R2, by rw [h2, stripIds_append]⟩
    · exact ih st hci

theorem strips_broadcast_user_statusCb {env : Env} {cb : Cb} (hcb : StripsState cb)
    (st : ConnectionManager) (u status : String) (hci : CInv st) :
    ∃ R, (broadcast_user_statusCb env cb st u status).1 = stripIds R st :=
  strips_busLoopCb hcb u _ st.project_subscriptions st hci

/-- Combining two membership filters over key lists. -/
theorem key_filter_merge (cid : Nat) (R' : List Nat)
    (l : List (Nat × WebSocketConnection)) :
    (l.filter (fun q => !decide (q.1 ∈ R'))).filter (fun q => !decide (q.1 = cid)) =
      l.filter (fun q => !decide (q.1 ∈ [cid] ++ R')) := by
  rw [List.filter_filter]
  apply List.filter_congr
  intro q _
  by_cases h1 : q.1 = cid
  · simp [h1]
  · by_cases h2 : q.1 ∈ R' <;> simp [h1, h2]

theorem strips_disconnectCore {env : Env} {cb : Cb} (hcb : StripsState cb)
    {st : ConnectionManager} {c : WebSocketConnection}
    (hci : CInv st) (hlc : ListCompat st c) :
    ∃ R, c.connection_id ∈ R ∧ (disconnectCore env cb st c).1 = stripIds R st := by
  unfold disconnectCore
  cases hu : alookup c.user_id st.user_connections with
  | none =>
    refine ⟨[c.connection_id], List.mem_singleton_self _, ?_⟩
    have h := removeConn_eq_strip hci hlc
    unfold removeConn at h
    rw [hu] at h
    exact h
  | some lst =>
    dsimp only
    have hnd : (lst.map WebSocketConnection.connection_id).Nodup :=
      hci.list_ids_nodup (alookup_mem hu)
    by_cases hemp : (removeById c.connection_id lst).isEmpty
    · rw [if_pos hemp]
      have hemp' : (lst.filter
          (fun x => !decide (x.connection_id = c.connection_id))).isEmpty := by
        rw [← removeById_eq_filter hnd]
        exact hemp
      have hstrip_uc : aerase c.user_id st.user_connections =
          stripUC [c.connection_id] st.user_connections := by
        rw [stripUC_lookup_some hci.uc_keys hci.uc_nonempty hlc hu, if_pos hemp']
      have hci1 : CInv { st with
          user_connections := aerase c.user_id st.user_connections } := by
        rw [hstrip_uc]
        exact CInv_replaceUC hci [c.connection_id]
      obtain ⟨R', hR'⟩ := strips_broadcast_user_statusCb hcb _ c.user_id "offline" hci1
      refine ⟨[c.connection_id] ++ R',
        List.mem_append_left R' (List.mem_singleton_self _), ?_⟩
      dsimp only
      rw [hR']
      apply structEq
      · show stripUC R' (aerase c.user_id st.user_connections) =
          stripUC ([c.connection_id] ++ R') st.user_connections
        rw [hstrip_uc, stripUC_append]
      · show aerase c.connection_id
          ((st.connections).filter (fun q => !decide (q.1 ∈ R'))) =
          st.connections.filter (fun q => !decide (q.1 ∈ [c.connection_id] ++ R'))
        rw [aerase_eq_filter (((List.filter_sublist _).map Prod.fst).nodup
          hci.conn_keys)]
        exact key_filter_merge c.connection_id R' st.connections
      · rfl
      · rfl
    · rw [if_neg hemp]
      refine ⟨[c.connection_id], List.mem_singleton_self _, ?_⟩
      have h := removeConn_eq_strip hci hlc
      unfold removeConn at h
      rw [hu] at h
      dsimp only at h
      rw [if_neg hemp] at h
      exact h

theorem strips_disconnect (env : Env) :
    ∀ (fuel : Nat) (st : ConnectionManager) (c : WebSocketConnection),
      CInv st → ListCompat st c →
      ∃ R, c.connection_id ∈ R ∧ (disconnect env fuel st c).1 = stripIds R st := by
  intro fuel
  induction fuel with
  | zero =>
    intro st c hci hlc
    exact strips_disconnectCore
      (fun s x hcis _ => ⟨[], (stripIds_nil hcis.uc_nonempty).symm⟩) hci hlc
  | succ n ih =>
    intro st c hci hlc
    exact strips_disconnectCore
      (fun s x hcis hlcs => (ih s x hcis hlcs).elim
        (fun R hR => ⟨R, hR.2⟩)) hci hlc

/-!
## Claim C7 — idempotence

Subscribing twice is one `set.add` too many (a no-op on a set); a second
disconnect of the same connection finds nothing left to remove; and
unsubscribing a non-member (or from an unknown topic) discards nothing.
-/

/-- `disconnect` on a connection no longer present anywhere is a complete
no-op (and sends nothing). -/
theorem disconnectCore_noop (env : Env) (cb : Cb) (st : ConnectionManager)
    (c : WebSocketConnection)
    (hlist : ∀ lst, alookup c.user_id st.user_connections = some lst →
      ((∀ x ∈ lst, x.connection_id ≠ c.connection_id) ∧ lst ≠ []))
    (hnc : c.connection_id ∉ st.connections.map Prod.fst) :
    disconnectCore env cb st c = (st, []) := by
  unfold disconnectCore
  cases hu : alookup c.user_id st.user_connections with
  | none =>
    rw [aerase_not_mem hnc]
  | some lst =>
    obtain ⟨hno, hne⟩ := hlist lst hu
    dsimp only
    rw [removeById_of_not_mem hno]
    rw [if_neg (by
      simp only [List.isEmpty_iff]
      exact hne)]
    rw [aset_lookup_self hu, aerase_not_mem hnc]

/-- C7: in a well-formed state (with the disconnected connection's id
filed only under its owner, as for every connection the registry ever
handed out): subscribing twice equals subscribing once; a second
disconnect of the same connection leaves the once-disconnected state
untouched and delivers nothing; and unsubscribing a user who is not a
member of the topic's set — or whose topic does not exist — leaves the
state unchanged (and, being total, raises nothing). -/
theorem C7_idempotence (env : Env) (fuel : Nat) (st : ConnectionManager)
    (c : WebSocketConnection) (u p : String)
    (hwf : WF st) (hlc : ListCompat st c) :
    (subscribe_to_project (subscribe_to_project st u p) u p =
      subscribe_to_project st u p) ∧
    (disconnect env fuel ((disconnect env fuel st c).1) c =
      ((disconnect env fuel st c).1, [])) ∧
    (u ∉ subscribersOf st p → unsubscribe_from_project st u p = st) := by
  refine ⟨?_, ?_, ?_⟩
  · simp only [subscribe_to_project]
    rw [alookup_aset_self]
    dsimp only [Option.getD_some]
    rw [if_pos (by
      split
      · rename_i h
        exact h
      · exact List.mem_append_right _ (List.mem_singleton_self u))]
    rw [aset_aset]
  · obtain ⟨R, hmem, heq⟩ := strips_disconnect env fuel st c hwf.cinv hlc
    rw [heq]
    have hnc : c.connection_id ∉ (stripIds R st).connections.map Prod.fst := by
      intro hmemk
      obtain ⟨q, hq, hq1⟩ := List.mem_map.mp hmemk
      have hfil := (List.mem_filter.mp hq).2
      rw [hq1] at hfil
      have hnotR : c.connection_id ∉ R := by simpa using hfil
      exact hnotR hmem
    have hlist : ∀ lst, alookup c.user_id (stripIds R st).user_connections = some lst →
        ((∀ x ∈ lst, x.connection_id ≠ c.connection_id) ∧ lst ≠ []) := by
      intro lst hlk
      have hmem_entry := alookup_mem hlk
      obtain ⟨q, hq, h1, h2, h3⟩ := mem_stripUC hmem_entry
      refine ⟨?_, h3⟩
      intro x hx heqid
      rw [show ((c.user_id, lst) : String × List WebSocketConnection).2 = lst from rfl] at h2
      rw [h2] at hx
      have hfil := (List.mem_filter.mp hx).2
      rw [heqid] at hfil
      have hnotR : c.connection_id ∉ R := by simpa using hfil
      exact hnotR hmem
    cases fuel with
    | zero => exact disconnectCore_noop env _ (stripIds R st) c hlist hnc
    | succ n => exact disconnectCore_noop env _ (stripIds R st) c hlist hnc
  · intro hnm
    unfold unsubscribe_from_project
    cases hs : alookup p st.project_subscriptions with
    | none => rfl
    | some s =>
      dsimp only
      have hus : u ∉ s := by
        unfold subscribersOf at hnm
        rw [hs] at hnm
        exact hnm
      rw [sdiscard_not_mem hus]
      rw [if_neg (by
        simp only [List.isEmpty_iff]
        exact hwf.sub_nonempty (p, s) (alookup_mem hs))]
      rw [aset_lookup_self hs]

/-- The single connection of the C7 witness state. -/
def C7c : WebSocketConnection := ⟨"a", 1, 0, 0⟩

/-- Witness state for C7: one user, one connection, one topic. -/
def C7st : ConnectionManager := ⟨[("a", [C7c])], [(1, C7c)], [("p1", ["a"])], 2⟩

/-- C7 witness: the idempotence theorem applied at a concrete state —
re-subscribing `"a"`, double-disconnecting its connection, and
unsubscribing the non-member `"b"`. -/
theorem C7_witness :
    (WF C7st ∧ ListCompat C7st C7c ∧ "b" ∉ subscribersOf C7st "p1") ∧
    (subscribe_to_project (subscribe_to_project C7st "a" "p1") "a" "p1" =
      subscribe_to_project C7st "a" "p1") ∧
    (disconnect envLive 3 ((disconnect envLive 3 C7st C7c).1) C7c =
      ((disconnect envLive 3 C7st C7c).1, [])) ∧
    unsubscribe_from_project C7st "b" "p1" = C7st := by
  have hwf : WF C7st :=
    ⟨⟨by decide, by decide, by decide, by decide, by decide⟩,
     by decide, by decide, by decide, by decide, by decide, by decide⟩
  have hlc : ListCompat C7st C7c := by
    unfold ListCompat
    decide
  have hnm : "b" ∉ subscribersOf C7st "p1" := by decide
  have ha := C7_idempotence envLive 3 C7st C7c "a" "p1" hwf hlc
  have hb := C7_idempotence envLive 3 C7st C7c "b" "p1" hwf hlc
  exact ⟨⟨hwf, hlc, hnm⟩, ha.1, ha.2.1, hb.2.2 hnm⟩

/-!
## Claims C8 and C9 — reachable-state invariants

Well-formedness (`WF`) holds in the initial state and is preserved by
every operation — registration, disconnection with arbitrary transport
behaviour and cascades, subscribe and unsubscribe.  C8's no-empty-entry
invariant and C9's two-map consistency are corollaries.
-/

/-- `strips_disconnect` restated as the callback contract. -/
theorem strips_disconnect_state (env : Env) (fuel : Nat) :
    StripsState (disconnect env fuel) := fun s x hci hlc =>
  (strips_disconnect env fuel s x hci hlc).elim (fun R hR => ⟨R, hR.2⟩)

theorem flatten_aset_perm {u : String} {lst : List WebSocketConnection}
    (c : WebSocketConnection) :
    ∀ {uc : List (String × List WebSocketConnection)},
      alookup u uc = some lst →
      ((aset u (lst ++ [c]) uc).map Prod.snd).flatten.Perm
        (((uc.map Prod.snd).flatten) ++ [c]) := by
  intro uc
  induction uc with
  | nil => intro h; exact absurd h (by simp [alookup])
  | cons e rest ih =>
    intro h
    obtain ⟨k, l⟩ := e
    rw [alookup] at h
    rw [aset]
    by_cases hk : k = u
    · rw [if_pos hk] at h
      injection h with hl
      rw [if_pos hk]
      simp only [List.map_cons, List.flatten_cons]
      rw [← hl, List.append_assoc, List.append_assoc]
      exact List.perm_append_comm.append_left l
    · rw [if_neg hk] at h
      rw [if_neg hk]
      simp only [List.map_cons, List.flatten_cons]
      have := (ih h).append_left l
      rw [List.append_assoc]
      exact this

/-- Registering a fresh connection preserves well-formedness, and the new
connection is list-compatible in the registered state. -/
theorem WF_register {st : ConnectionManager} (hwf : WF st) (u : String) (t1 t2 : Int)
    (c : WebSocketConnection) (hc : c = ⟨u, st.nextId, t1, t2⟩)
    (st1 : ConnectionManager)
    (hst1 : st1 = { st with
      user_connections := aset u (((alookup u st.user_connections).getD []) ++ [c])
        st.user_connections,
      connections := aset st.nextId c st.connections,
      nextId := st.nextId + 1 }) :
    WF st1 ∧ ListCompat st1 c := by
  have hcu : c.user_id = u := by rw [hc]
  have hcid : c.connection_id = st.nextId := by rw [hc]
  have hfresh_keys : st.nextId ∉ st.connections.map Prod.fst := by
    intro hmem
    obtain ⟨q, hq, hq1⟩ := List.mem_map.mp hmem
    exact absurd (hq1 ▸ hwf.ids_lt q hq) (lt_irrefl st.nextId)
  have hconns_eq : aset st.nextId c st.connections =
      st.connections ++ [(st.nextId, c)] := aset_not_mem_append hfresh_keys
  have hfresh_ids : ∀ x ∈ allConns st, x.connection_id ≠ st.nextId := by
    intro x hx heq
    obtain ⟨q, hq, hq2⟩ := List.mem_map.mp (hwf.conn_perm.mem_iff.mp hx)
    have h1 := hwf.conn_ids q hq
    rw [hq2] at h1
    have h2 := hwf.ids_lt q hq
    rw [← h1, heq] at h2
    exact lt_irrefl _ h2
  have howner_lst : ∀ x ∈ (alookup u st.user_connections).getD [], x.user_id = u := by
    cases hu : alookup u st.user_connections with
    | none => intro x hx; exact absurd hx (by simp)
    | some l =>
      intro x hx
      exact hwf.cinv.uc_owner (u, l) (alookup_mem hu) x hx
  have hsub_lst : ∀ x ∈ (alookup u st.user_connections).getD [], x ∈ allConns st := by
    cases hu : alookup u st.user_connections with
    | none => intro x hx; exact absurd hx (by simp)
    | some l =>
      intro x hx
      exact mem_allConns_of_mem (alookup_mem hu) hx
  have hperm : ((aset u (((alookup u st.user_connections).getD []) ++ [c])
      st.user_connections).map Prod.snd).flatten.Perm (allConns st ++ [c]) := by
    cases hu : alookup u st.user_connections with
    | none =>
      rw [show (none : Option (List WebSocketConnection)).getD [] = [] from rfl,
        List.nil_append]
      rw [aset_not_mem_append (alookup_eq_none_iff.mp hu)]
      rw [List.map_append, List.flatten_append]
      exact List.Perm.refl _
    | some l =>
      rw [show (some l).getD [] = l from rfl]
      exact flatten_aset_perm c hu
  subst hst1
  constructor
  · refine ⟨⟨?_, ?_, ?_, ?_, ?_⟩, hwf.sub_keys, hwf.sub_nonempty, hwf.sub_nodup,
      ?_, ?_, ?_⟩
    · exact aset_keys_nodup hwf.cinv.uc_keys
    · show ((aset st.nextId c st.connections).map Prod.fst).Nodup
      rw [hconns_eq, List.map_append]
      rw [List.nodup_append]
      refine ⟨hwf.cinv.conn_keys, List.nodup_singleton _, ?_⟩
      intro a ha hb
      rw [List.map_singleton, List.mem_singleton] at hb
      rw [hb] at ha
      exact hfresh_keys ha
    · intro p hp
      rcases mem_aset_or hp with heq | hold
      · rw [heq]
        simp
      · exact hwf.cinv.uc_nonempty p hold
    · intro p hp x hx
      rcases mem_aset_or hp with heq | hold
      · rw [heq] at hx ⊢
        rcases List.mem_append.mp hx with hxl | hxc
        · exact howner_lst x hxl
        · rw [List.mem_singleton] at hxc
          rw [hxc, hcu]
      · exact hwf.cinv.uc_owner p hold x hx
    · show (((aset u (((alookup u st.user_connections).getD []) ++ [c])
        st.user_connections).map Prod.snd).flatten.map
        WebSocketConnection.connection_id).Nodup
      have hpm := hperm.map WebSocketConnection.connection_id
      rw [List.map_append] at hpm
      refine hpm.nodup_iff.mpr ?_
      rw [List.nodup_append]
      refine ⟨hwf.cinv.ids_nodup, List.nodup_singleton _, ?_⟩
      intro a ha hb
      rw [List.map_singleton, List.mem_singleton] at hb
      obtain ⟨x, hxm, hxid⟩ := List.mem_map.mp ha
      apply hfresh_ids x hxm
      rw [hxid, hb, hcid]
    · intro q hq
      rw [show ({ st with
          user_connections := aset u (((alookup u st.user_connections).getD []) ++ [c])
            st.user_connections,
          connections := aset st.nextId c st.connections,
          nextId := st.nextId + 1 } : ConnectionManager).connections =
        aset st.nextId c st.connections from rfl, hconns_eq] at hq
      rcases List.mem_append.mp hq with hold | hnew
      · exact hwf.conn_ids q hold
      · rw [List.mem_singleton] at hnew
        rw [hnew]
        exact hcid
    · show (((aset u (((alookup u st.user_connections).getD []) ++ [c])
        st.user_connections).map Prod.snd).flatten).Perm
        ((aset st.nextId c st.connections).map Prod.snd)
      rw [hconns_eq, List.map_append]
      exact hperm.trans (List.Perm.append_right [c] hwf.conn_perm)
    · intro q hq
      rw [show ({ st with
          user_connections := aset u (((alookup u st.user_connections).getD []) ++ [c])
            st.user_connections,
          connections := aset st.nextId c st.connections,
          nextId := st.nextId + 1 } : ConnectionManager).connections =
        aset st.nextId c st.connections from rfl, hconns_eq] at hq
      show q.1 < st.nextId + 1
      rcases List.mem_append.mp hq with hold | hnew
      · exact Nat.lt_trans (hwf.ids_lt q hold) (Nat.lt_succ_self _)
      · rw [List.mem_singleton] at hnew
        rw [hnew]
        exact Nat.lt_succ_self _
  · intro q hq x hx hid
    rcases mem_aset_or hq with heq | hold
    · rw [heq, hcu]
    · exfalso
      apply hfresh_ids x (mem_allConns_of_mem hold hx)
      rw [hid, hcid]

/-- Whatever the transport behaviour, the two sends `connect` performs
after registering map a well-formed registered state to a well-formed
state. -/
theorem WF_after_sends (env : Env) (fuel : Nat) {st1 : ConnectionManager}
    {c : WebSocketConnection} (hwf1 : WF st1) (hlc : ListCompat st1 c)
    (m : Msg) (u' status : String) :
    WF ((broadcast_user_statusCb env (disconnect env fuel)
      (((send_to_connectionCb env (disconnect env fuel) st1 c m).1).1) u' status).1) := by
  obtain ⟨R1, h1⟩ := strips_send_to_connectionCb env
    (strips_disconnect_state env fuel) m hwf1.cinv hlc
  rw [h1]
  obtain ⟨R2, h2⟩ := strips_broadcast_user_statusCb (strips_disconnect_state env fuel)
    (stripIds R1 st1) u' status (CInv_stripIds hwf1.cinv R1)
  rw [h2, stripIds_append]
  exact WF_stripIds hwf1 (R1 ++ R2)

theorem WF_connect (env : Env) (fuel : Nat) {st : ConnectionManager} (hwf : WF st)
    (u : String) : WF (((connect env fuel st u).1).1) := by
  obtain ⟨hwf1, hcompat1⟩ := WF_register hwf u env.now env.now _ rfl _ rfl
  unfold connect send_to_connection broadcast_user_status
  dsimp only
  exact WF_after_sends env fuel hwf1 hcompat1 _ u "online"

theorem WF_subscribe {st : ConnectionManager} (hwf : WF st) (u p : String) :
    WF (subscribe_to_project st u p) := by
  have hs_nodup : ((alookup p st.project_subscriptions).getD []).Nodup := by
    cases hs : alookup p st.project_subscriptions with
    | none => simp
    | some s => exact hwf.sub_nodup (p, s) (alookup_mem hs)
  unfold subscribe_to_project
  refine ⟨⟨hwf.cinv.uc_keys, hwf.cinv.conn_keys, hwf.cinv.uc_nonempty,
    hwf.cinv.uc_owner, hwf.cinv.ids_nodup⟩,
    aset_keys_nodup hwf.sub_keys, ?_, ?_, hwf.conn_ids, hwf.conn_perm, hwf.ids_lt⟩
  · intro q hq
    rcases mem_aset_or hq with heq | hold
    · rw [heq]
      dsimp only
      split
      · rename_i hmem
        exact List.ne_nil_of_mem hmem
      · simp
    · exact hwf.sub_nonempty q hold
  · intro q hq
    rcases mem_aset_or hq with heq | hold
    · rw [heq]
      dsimp only
      split
      · exact hs_nodup
      · rename_i hmem
        rw [List.nodup_append]
        refine ⟨hs_nodup, List.nodup_singleton u, ?_⟩
        intro a ha hb
        rw [List.mem_singleton] at hb
        rw [hb] at ha
        exact hmem ha
    · exact hwf.sub_nodup q hold

theorem WF_unsubscribe {st : ConnectionManager} (hwf : WF st) (u p : String) :
    WF (unsubscribe_from_project st u p) := by
  unfold unsubscribe_from_project
  cases hs : alookup p st.project_subscriptions with
  | none => exact hwf
  | some s =>
    dsimp only
    split
    · refine ⟨⟨hwf.cinv.uc_keys, hwf.cinv.conn_keys, hwf.cinv.uc_nonempty,
        hwf.cinv.uc_owner, hwf.cinv.ids_nodup⟩,
        ((aerase_sublist p st.project_subscriptions).map Prod.fst).nodup hwf.sub_keys,
        ?_, ?_, hwf.conn_ids, hwf.conn_perm, hwf.ids_lt⟩
      · intro q hq
        exact hwf.sub_nonempty q ((aerase_sublist p st.project_subscriptions).subset hq)
      · intro q hq
        exact hwf.sub_nodup q ((aerase_sublist p st.project_subscriptions).subset hq)
    · rename_i hne
      refine ⟨⟨hwf.cinv.uc_keys, hwf.cinv.conn_keys, hwf.cinv.uc_nonempty,
        hwf.cinv.uc_owner, hwf.cinv.ids_nodup⟩,
        aset_keys_nodup hwf.sub_keys, ?_, ?_, hwf.conn_ids, hwf.conn_perm, hwf.ids_lt⟩
      · intro q hq
        rcases mem_aset_or hq with heq | hold
        · rw [heq]
          intro habs
          apply hne
          rw [show ((p, sdiscard u s) : String × List String).2 = sdiscard u s
            from rfl] at habs
          rw [habs]
          rfl
        · exact hwf.sub_nonempty q hold
      · intro q hq
        rcases mem_aset_or hq with heq | hold
        · rw [heq]
          exact (sdiscard_sublist u s).nodup (hwf.sub_nodup (p, s) (alookup_mem hs))
        · exact hwf.sub_nodup q hold

theorem WF_applyOp {st : ConnectionManager} (hwf : WF st) (op : Op) :
    WF (applyOp st op) := by
  cases op with
  | connectOp env fuel u => exact WF_connect env fuel hwf u
  | disconnectOp env fuel cid =>
    dsimp only [applyOp]
    cases hlook : alookup cid st.connections with
    | none => exact hwf
    | some c =>
      dsimp only
      have hlcv : ListCompat st c := hwf.listCompat_of_value (alookup_mem hlook)
      obtain ⟨R, _, heq⟩ := strips_disconnect env fuel st c hwf.cinv hlcv
      rw [heq]
      exact WF_stripIds hwf R
  | subscribeOp u p => exact WF_subscribe hwf u p
  | unsubscribeOp u p => exact WF_unsubscribe hwf u p

theorem WF_initial : WF initialManager :=
  ⟨⟨by decide, by decide, by decide, by decide, by decide⟩,
   by decide, by decide, by decide, by decide, by decide, by decide⟩

/-- Every state reachable by register/unregister/subscribe/unsubscribe
operations (with arbitrary transport behaviour at each step) is
well-formed. -/
theorem WF_runOps (ops : List Op) : WF (runOps ops) := by
  unfold runOps
  suffices h : ∀ (st : ConnectionManager), WF st → WF (ops.foldl applyOp st) from
    h initialManager WF_initial
  induction ops with
  | nil => intro st h; exact h
  | cons op rest ih => intro st h; exact ih (applyOp st op) (WF_applyOp h op)

/-- C8: in every state reachable by any sequence of subscribe,
unsubscribe, register and unregister operations — with arbitrary
transport failures and disconnect cascades along the way — no topic entry
of the subscription index maps to an empty subscriber set, and no user
entry of the registry maps to an empty connection list: the operation
that empties an entry deletes it. -/
theorem C8_no_empty_entries (ops : List Op) :
    (∀ p ∈ (runOps ops).user_connections, p.2 ≠ []) ∧
    (∀ p ∈ (runOps ops).project_subscriptions, p.2 ≠ []) :=
  ⟨(WF_runOps ops).cinv.uc_nonempty, (WF_runOps ops).sub_nonempty⟩

theorem count_le_count_map_id (c : WebSocketConnection) :
    ∀ (l : List WebSocketConnection),
      l.count c ≤ (l.map WebSocketConnection.connection_id).count c.connection_id := by
  intro l
  induction l with
  | nil => exact Nat.le_refl 0
  | cons x rest ih =>
    rw [List.map_cons, List.count_cons, List.count_cons]
    refine Nat.add_le_add ih ?_
    by_cases hx : c = x
    · have hid : c.connection_id = x.connection_id := by rw [hx]
      simp [hx, hid]
    · rw [if_neg (fun h => hx ((beq_iff_eq.mp h).symm))]
      exact Nat.zero_le _

/-- The consistency facts C9 claims, extracted from well-formedness. -/
theorem WF.registry_consistent {st : ConnectionManager} (hwf : WF st) :
    (∀ q ∈ st.connections, ∃ l,
      alookup q.2.user_id st.user_connections = some l ∧ l.count q.2 = 1) ∧
    (∀ p ∈ st.user_connections, ∀ c ∈ p.2,
      alookup c.connection_id st.connections = some c) ∧
    (get_connection_stats st).total_connections =
      ((get_connection_stats st).connections_per_user.map Prod.snd).sum := by
  refine ⟨?_, ?_, ?_⟩
  · intro q hq
    have hv : q.2 ∈ st.connections.map Prod.snd := List.mem_map_of_mem Prod.snd hq
    have ha : q.2 ∈ allConns st := hwf.conn_perm.mem_iff.mpr hv
    obtain ⟨p, hp, hcp⟩ := exists_entry_of_mem_allConns ha
    have howner : q.2.user_id = p.1 := hwf.cinv.uc_owner p hp _ hcp
    refine ⟨p.2, ?_, ?_⟩
    · rw [howner]
      exact alookup_eq_of_mem hwf.cinv.uc_keys hp
    · have hge : 1 ≤ p.2.count q.2 := List.one_le_count_iff.mpr hcp
      have hle : p.2.count q.2 ≤ 1 := by
        have h1 := count_le_count_map_id q.2 p.2
        have hsubl : p.2.Sublist (allConns st) :=
          sublist_flatten_of_mem (List.mem_map_of_mem Prod.snd hp)
        have h2 := (hsubl.map WebSocketConnection.connection_id).count_le
          q.2.connection_id
        have h3 := List.nodup_iff_count_le_one.mp hwf.cinv.ids_nodup
          q.2.connection_id
        omega
      omega
  · intro p hp c hc
    have ha : c ∈ allConns st := mem_allConns_of_mem hp hc
    have hv : c ∈ st.connections.map Prod.snd := hwf.conn_perm.mem_iff.mp ha
    obtain ⟨q, hq, hq2⟩ := List.mem_map.mp hv
    have hfst : q.1 = c.connection_id := by
      have := hwf.conn_ids q hq
      rw [hq2] at this
      exact this.symm
    have : ((c.connection_id, c) : Nat × WebSocketConnection) ∈ st.connections := by
      have hqe : q = (c.connection_id, c) := by
        rw [Prod.ext_iff]
        exact ⟨hfst, hq2⟩
      rw [← hqe]
      exact hq
    exact alookup_eq_of_mem hwf.cinv.conn_keys this
  · show st.connections.length =
      ((st.user_connections.map (fun p => (p.1, p.2.length))).map Prod.snd).sum
    rw [List.map_map]
    have h1 : st.connections.length = (allConns st).length := by
      rw [hwf.conn_perm.length_eq, List.length_map]
    rw [h1]
    show ((st.user_connections.map Prod.snd).flatten).length = _
    rw [List.length_flatten, List.map_map]
    rfl

/-- C9: in every reachable state the two registry maps are mutually
consistent — every connection of the global id map appears exactly once
in its owner's list, every listed connection is stored in the global map
under its own id — and consequently `get_connection_stats` reports a
total equal to the sum of the per-user counts. -/
theorem C9_registry_consistency (ops : List Op) :
    (∀ q ∈ (runOps ops).connections, ∃ l,
      alookup q.2.user_id (runOps ops).user_connections = some l ∧ l.count q.2 = 1) ∧
    (∀ p ∈ (runOps ops).user_connections, ∀ c ∈ p.2,
      alookup c.connection_id (runOps ops).connections = some c) ∧
    (get_connection_stats (runOps ops)).total_connections =
      ((get_connection_stats (runOps ops)).connections_per_user.map Prod.snd).sum :=
  (WF_runOps ops).registry_consistent

end STM
